import Mathlib

/-
Verification of the hot-loader file-watching library (hot_loader.h).

The embedding models the HotLoader class state: the task heap (observer
objects addressed by pointer identity, here a Nat id), the path -> observer
map `_tasks`, the reverse index `_watch_descriptors`, and the kernel-side
set of live inotify watches.  Kernel calls that can fail
(inotify_add_watch) take an explicit success flag; inotify_add_watch on a
path that already has a live watch returns the existing descriptor, as the
kernel does for an unchanged inode.  The filesystem is a list of currently
existing regular files in canonical form.  on_reload() is modelled as an
append to a reload log.
-/

namespace HotLoader

/-- Association-list lookup: first binding wins, as in a map. -/
def lookupA {α β : Type} [DecidableEq α] : List (α × β) → α → Option β
  | [], _ => none
  | (a, b) :: rest, k => if a = k then some b else lookupA rest k

/-- Association-list insert-or-assign: replaces the first binding of the key,
or appends a new binding. -/
def insertA {α β : Type} [DecidableEq α] : List (α × β) → α → β → List (α × β)
  | [], k, v => [(k, v)]
  | (a, b) :: rest, k, v =>
      if a = k then (k, v) :: rest else (a, b) :: insertA rest k v

/-- Association-list erase of the first binding of the key. -/
def eraseA {α β : Type} [DecidableEq α] : List (α × β) → α → List (α × β)
  | [], _ => []
  | (a, b) :: rest, k => if a = k then rest else (a, b) :: eraseA rest k

/-- Ownership flag fixed at registration (hot_loader.h lines 77-80). -/
inductive OwnerShip
  | OWN_TASK
  | DOESNT_OWN_TASK
deriving DecidableEq

/-- A HotLoadTask object: canonical file path (immutable), mutable inotify
watch descriptor (-1 = unwatched), plus a destroyed flag recording that
`delete task` has run (field values are retained so that the model stays
total; no verified scenario relies on a field read after destruction except
where the C++ itself reads through the freed pointer, which is noted at the
call sites). -/
structure TaskObj where
  file : String
  watch_descriptor : Int
  destroyed : Bool
deriving DecidableEq

/-- One registry slot: observer identity plus ownership (struct TaskInfo,
hot_loader.h lines 471-477). -/
structure TaskInfo where
  task : Nat
  ownership : OwnerShip
deriving DecidableEq

/-- The heap of task objects, addressed by pointer identity. -/
abbrev Heap := List (Nat × TaskObj)

/-- Full HotLoader state: registry, reverse index, kernel-side watches,
file descriptors, lifecycle flags and the reload-call log. -/
structure HotLoaderState where
  heap : Heap
  tasks : List (String × List TaskInfo)
  watch_descriptors : List (Int × String)
  kernelWatches : List (Int × String)
  nextWd : Int
  reloads : List Nat
  inotify_fd : Int
  epoll_fd : Int
  initialized : Bool
  running : Bool
  worker_joinable : Bool
deriving DecidableEq

/-- Event mask bit IN_CLOSE_WRITE (0x8). -/
def IN_CLOSE_WRITE : Nat := 8

/-- Event mask bit IN_IGNORED (0x8000), delivered when the kernel drops a
watch (file deleted or watch removed). -/
def IN_IGNORED : Nat := 32768

/-- errno value EINTR. -/
def EINTR : Int := 4

/-- errno value EAGAIN. -/
def EAGAIN : Int := 11

/-- errno value EWOULDBLOCK (equal to EAGAIN on Linux). -/
def EWOULDBLOCK : Int := 11

/-- Heap lookup by task id. -/
def heapGet (h : Heap) (tid : Nat) : Option TaskObj := lookupA h tid

/-- Update the object bound to a task id, leaving other bindings alone. -/
def heapModify (h : Heap) (tid : Nat) (f : TaskObj → TaskObj) : Heap :=
  match h with
  | [] => []
  | (a, o) :: rest =>
      if a = tid then (a, f o) :: heapModify rest tid f
      else (a, o) :: heapModify rest tid f

/-- Write the watch descriptor field (HotLoadTask::set_watch_descriptor). -/
def setWdO (w : Int) (o : TaskObj) : TaskObj := { o with watch_descriptor := w }

/-- Mark the object destroyed (the effect of `delete task`). -/
def destroyO (o : TaskObj) : TaskObj := { o with destroyed := true }

/-- The watch descriptor a task currently holds; -1 for an id not in the
heap (matching the constructor's initial value). -/
def heapWd (h : Heap) (tid : Nat) : Int :=
  match heapGet h tid with
  | some o => o.watch_descriptor
  | none => -1

/-- The file a task watches, when the id is live in the heap. -/
def heapFile (h : Heap) (tid : Nat) : Option String :=
  (heapGet h tid).map (fun o => o.file)

/-- Whether `delete` has run on the object bound to the id. -/
def heapDestroyed (h : Heap) (tid : Nat) : Bool :=
  match heapGet h tid with
  | some o => o.destroyed
  | none => false

/-- Kernel side of inotify_add_watch on an existing file: if the inode is
already watched on this inotify instance the existing descriptor is
returned and no new watch is created; otherwise a fresh descriptor is
issued. -/
def kernelAddWatch (st : HotLoaderState) (path : String) : Int × HotLoaderState :=
  match st.kernelWatches.find? (fun e => e.2 == path) with
  | some e => (e.1, st)
  | none =>
      (st.nextWd,
        { st with kernelWatches := (st.nextWd, path) :: st.kernelWatches,
                  nextWd := st.nextWd + 1 })

/-- Kernel side of inotify_rm_watch: drop the watch with this descriptor
(a no-op when the kernel already invalidated it). -/
def inotify_rm_watch (st : HotLoaderState) (wd : Int) : HotLoaderState :=
  { st with kernelWatches := st.kernelWatches.filter (fun e => !(e.1 == wd)) }

/-- Effect of calling on_reload() on a task: one entry appended to the
reload log. -/
def on_reload (st : HotLoaderState) (tid : Nat) : HotLoaderState :=
  { st with reloads := st.reloads ++ [tid] }

/-- Abstraction of HotLoadTask::normalize_path (hot_loader.h lines 33-53)
over the external std::filesystem collaborator: `fs` is the set of
currently existing regular files, kept in canonical form, so an existing
path canonicalizes to itself and any path that does not resolve to an
existing regular file yields the empty sentinel (lines 35-37 and the
catch-all at 50-52). -/
def normalize_path (fs : List String) (p : String) : String :=
  if fs.contains p then p else ""

/-- The `_tasks[file]` map indexing of register_task (line 131): inserts an
empty observer vector when the key is absent. -/
def getOrInsertEmpty (m : List (String × List TaskInfo)) (k : String) :
    List (String × List TaskInfo) :=
  match lookupA m k with
  | some _ => m
  | none => insertA m k []

/-- HotLoader::register_task (hot_loader.h lines 117-158).  `task = none`
models a null pointer; `addOk` is the outcome of inotify_add_watch when a
new watch is needed.  A non-null id absent from the heap would be an
invalid pointer dereference in C++; the model returns (-99, st) on that
dead branch. -/
def register_task (st : HotLoaderState) (task : Option Nat)
    (ownership : OwnerShip) (addOk : Bool) : Int × HotLoaderState :=
  match task with
  | none => (-1, st)
  | some tid =>
    if st.initialized = false then (-2, st)
    else
      match heapGet st.heap tid with
      | none => (-99, st)
      | some obj =>
        let file := obj.file
        let tasks1 := getOrInsertEmpty st.tasks file
        let task_list := (lookupA tasks1 file).getD []
        if task_list.any (fun info => info.task == tid) then
          (-3, { st with tasks := tasks1 })
        else
          match task_list with
          | info0 :: _ =>
            let wd := heapWd st.heap info0.task
            let st1 := { st with tasks := tasks1,
                                 heap := heapModify st.heap tid (setWdO wd) }
            let st2 := { st1 with
                          tasks := insertA st1.tasks file
                                     (task_list ++ [TaskInfo.mk tid ownership]) }
            (0, { st2 with
                    watch_descriptors := insertA st2.watch_descriptors wd file })
          | [] =>
            if addOk then
              let stp := kernelAddWatch { st with tasks := tasks1 } file
              let st1 := { stp.2 with
                            heap := heapModify stp.2.heap tid (setWdO stp.1) }
              let st2 := { st1 with
                            tasks := insertA st1.tasks file [TaskInfo.mk tid ownership] }
              (0, { st2 with
                      watch_descriptors := insertA st2.watch_descriptors stp.1 file })
            else (-4, { st with tasks := tasks1 })

/-- First registry slot holding this task id (the std::find_if at lines
180-181). -/
def findInfo : List TaskInfo → Nat → Option TaskInfo
  | [], _ => none
  | info :: rest, tid => if info.task = tid then some info else findInfo rest tid

/-- Erase the first registry slot holding this task id. -/
def eraseTaskInfo : List TaskInfo → Nat → List TaskInfo
  | [], _ => []
  | info :: rest, tid =>
      if info.task = tid then rest else info :: eraseTaskInfo rest tid

/-- HotLoader::unregister_task(HotLoadTask*) (hot_loader.h lines 160-205).
When the removed observer was the last one, the C++ reads
task->watch_descriptor() after having possibly deleted the task; the model
reads the retained field value, which the preceding code never changed. -/
def unregister_task (st : HotLoaderState) (task : Option Nat) :
    Int × HotLoaderState :=
  match task with
  | none => (-1, st)
  | some tid =>
    if st.initialized = false then (-2, st)
    else
      match heapGet st.heap tid with
      | none => (-99, st)
      | some obj =>
        match lookupA st.tasks obj.file with
        | none => (-4, st)
        | some task_list =>
          if task_list = [] then (-4, st)
          else
            match findInfo task_list tid with
            | none => (-4, st)
            | some info =>
              let st1 :=
                if info.ownership = OwnerShip.OWN_TASK then
                  { st with heap := heapModify st.heap tid destroyO }
                else st
              let rest := eraseTaskInfo task_list tid
              if rest = [] then
                let wd := obj.watch_descriptor
                let st2 :=
                  if wd ≥ 0 then
                    { inotify_rm_watch st1 wd with
                        watch_descriptors := eraseA st1.watch_descriptors wd }
                  else st1
                (0, { st2 with tasks := eraseA st2.tasks obj.file })
              else (0, { st1 with tasks := insertA st1.tasks obj.file rest })

/-- The per-observer body of unregister_task(const std::string&): reset the
watch descriptor to -1, then delete the observer when registry-owned
(hot_loader.h lines 227-234). -/
def detachHeap : List TaskInfo → Heap → Heap
  | [], h => h
  | info :: rest, h =>
      let h1 := heapModify h info.task (setWdO (-1))
      let h2 := if info.ownership = OwnerShip.OWN_TASK
                then heapModify h1 info.task destroyO else h1
      detachHeap rest h2

/-- HotLoader::unregister_task(const std::string&) (hot_loader.h lines
207-246).  Mirrors the source order: every observer's descriptor is reset
to -1 (and registry-owned observers deleted) before line 237 re-reads
task_list[0]'s descriptor to decide whether to remove the kernel watch. -/
def unregister_task_path (fs : List String) (st : HotLoaderState)
    (file : String) : Int × HotLoaderState :=
  if st.initialized = false then (-2, st)
  else
    let nf := normalize_path fs file
    if nf = "" then (-3, st)
    else
      match lookupA st.tasks nf with
      | none => (-4, st)
      | some task_list =>
        match task_list with
        | [] => (-4, st)
        | info0 :: _ =>
          let st1 := { st with heap := detachHeap task_list st.heap }
          let wd0 := heapWd st1.heap info0.task
          let st2 :=
            if wd0 ≥ 0 then
              { inotify_rm_watch st1 wd0 with
                  watch_descriptors := eraseA st1.watch_descriptors wd0 }
            else st1
          (0, { st2 with tasks := eraseA st2.tasks nf })

/-- The per-observer body of unregister_all_tasks (hot_loader.h lines
256-266): remove the kernel watch when the descriptor is live, erase it
from the reverse index, delete registry-owned observers. -/
def unregAllInfo : List TaskInfo → HotLoaderState → HotLoaderState
  | [], st => st
  | info :: rest, st =>
      let wd := heapWd st.heap info.task
      let st1 :=
        if wd ≥ 0 then
          { inotify_rm_watch st wd with
              watch_descriptors := eraseA st.watch_descriptors wd }
        else st
      let st2 :=
        if info.ownership = OwnerShip.OWN_TASK then
          { st1 with heap := heapModify st1.heap info.task destroyO }
        else st1
      unregAllInfo rest st2

/-- Iteration of unregister_all_tasks over every registry entry. -/
def unregAllEntries : List (String × List TaskInfo) → HotLoaderState →
    HotLoaderState
  | [], st => st
  | (_, l) :: rest, st => unregAllEntries rest (unregAllInfo l st)

/-- HotLoader::unregister_all_tasks (hot_loader.h lines 248-273). -/
def unregister_all_tasks (st : HotLoaderState) : Int × HotLoaderState :=
  if st.initialized = false then (-1, st)
  else
    let st1 := unregAllEntries st.tasks st
    (0, { st1 with tasks := [], watch_descriptors := [] })

/-- HotLoader::close_file_descriptors (hot_loader.h lines 313-322); -1
marks a closed descriptor. -/
def close_file_descriptors (st : HotLoaderState) : HotLoaderState :=
  let st1 := if st.inotify_fd ≥ 0 then { st with inotify_fd := -1 } else st
  if st1.epoll_fd ≥ 0 then { st1 with epoll_fd := -1 } else st1

/-- HotLoader::init (hot_loader.h lines 87-115).  The three flags are the
outcomes of inotify_init1, epoll_create1 and epoll_ctl; the concrete
descriptor numbers 3 and 4 stand for the values the kernel returns. -/
def init (st : HotLoaderState) (inotifyOk epollOk ctlOk : Bool) :
    Int × HotLoaderState :=
  if st.initialized then (0, st)
  else if inotifyOk = false then (-1, st)
  else
    let st1 := { st with inotify_fd := 3 }
    if epollOk = false then (-2, close_file_descriptors st1)
    else
      let st2 := { st1 with epoll_fd := 4 }
      if ctlOk = false then (-3, close_file_descriptors st2)
      else (0, { st2 with initialized := true })

/-- HotLoader::run (hot_loader.h lines 275-289). -/
def run (st : HotLoaderState) : Int × HotLoaderState :=
  if st.running then (-1, st)
  else if st.initialized = false then (-2, st)
  else (0, { st with running := true, worker_joinable := true })

/-- HotLoader::stop (hot_loader.h lines 291-299).  `callerIsWorker` records
on which thread stop() executes: std::thread::join called on the thread's
own std::thread object throws std::system_error
(resource_deadlock_would_occur), and work_loop has no handler, so the
exception escapes and std::terminate ends the process; that outcome is
`none`.  Otherwise the worker is joined and unregister_all_tasks runs. -/
def stop (st : HotLoaderState) (callerIsWorker : Bool) :
    Option HotLoaderState :=
  let st1 := { st with running := false }
  if st1.worker_joinable then
    if callerIsWorker then none
    else some (unregister_all_tasks { st1 with worker_joinable := false }).2
  else some (unregister_all_tasks st1).2

/-- Set the watch descriptor of every listed observer (the reset loops of
rewatch_task, lines 446-449 and 463-466). -/
def setWdHeap (w : Int) : List TaskInfo → Heap → Heap
  | [], h => h
  | info :: rest, h => setWdHeap w rest (heapModify h info.task (setWdO w))

/-- The success loop of rewatch_task and restart_stopped_tasks (lines
413-417 and 456-460): for each observer in order, call on_reload() and
then store the new descriptor. -/
def reloadSetAll (w : Int) : List TaskInfo → HotLoaderState → HotLoaderState
  | [], st => st
  | info :: rest, st =>
      reloadSetAll w rest
        { st with reloads := st.reloads ++ [info.task],
                  heap := heapModify st.heap info.task (setWdO w) }

/-- HotLoader::rewatch_task (hot_loader.h lines 424-468).  `fs` is the set
of existing files; `addOk` is the outcome of inotify_add_watch. -/
def rewatch_task (fs : List String) (st : HotLoaderState) (task : Option Nat)
    (addOk : Bool) : HotLoaderState :=
  match task with
  | none => st
  | some tid =>
    match heapGet st.heap tid with
    | none => st
    | some obj =>
      match lookupA st.tasks obj.file with
      | none => st
      | some task_list =>
        match task_list with
        | [] => st
        | info0 :: _ =>
          let wd0 := heapWd st.heap info0.task
          let st1 :=
            if wd0 ≥ 0 then
              { inotify_rm_watch st wd0 with
                  watch_descriptors := eraseA st.watch_descriptors wd0 }
            else st
          if fs.contains obj.file = false then
            { st1 with heap := setWdHeap (-1) task_list st1.heap }
          else if addOk then
            let stp := kernelAddWatch st1 obj.file
            let st3 := reloadSetAll stp.1 task_list stp.2
            { st3 with
                watch_descriptors := insertA st3.watch_descriptors stp.1 obj.file }
          else { st1 with heap := setWdHeap (-1) task_list st1.heap }

/-- Iteration of restart_stopped_tasks over the registry entries
(hot_loader.h lines 398-422): an entry whose first observer is unwatched
and whose file exists again gets a fresh watch; on success every observer
is reloaded and re-armed. -/
def restartEntries (fs : List String) (addOk : Bool) :
    List (String × List TaskInfo) → HotLoaderState → HotLoaderState
  | [], st => st
  | (file, task_list) :: rest, st =>
    let st1 :=
      match task_list with
      | [] => st
      | info0 :: _ =>
        if heapWd st.heap info0.task < 0 ∧ fs.contains file = true then
          if addOk then
            let stp := kernelAddWatch st file
            let st3 := reloadSetAll stp.1 task_list stp.2
            { st3 with
                watch_descriptors := insertA st3.watch_descriptors stp.1 file }
          else st
        else st
    restartEntries fs addOk rest st1

/-- HotLoader::restart_stopped_tasks (hot_loader.h lines 398-422). -/
def restart_stopped_tasks (fs : List String) (st : HotLoaderState)
    (addOk : Bool) : HotLoaderState :=
  restartEntries fs addOk st.tasks st

/-- The per-observer dispatch of work_loop (hot_loader.h lines 383-391):
an aggregated mask containing IN_IGNORED triggers rewatch_task for each
observer of the entry in turn; otherwise each observer's on_reload() is
called. -/
def dispatchList (fs : List String) (addOk : Bool) (mask : Nat) :
    List TaskInfo → HotLoaderState → HotLoaderState
  | [], st => st
  | info :: rest, st =>
      let st1 :=
        if mask.land IN_IGNORED ≠ 0 then rewatch_task fs st (some info.task) addOk
        else on_reload st info.task
      dispatchList fs addOk mask rest st1

/-- Handling of one aggregated (watch descriptor, mask) pair in work_loop
(hot_loader.h lines 377-394): resolve the descriptor through the reverse
index, then the path through the registry, then dispatch to the entry's
observers. -/
def processEvent (fs : List String) (addOk : Bool) (st : HotLoaderState)
    (wd : Int) (mask : Nat) : HotLoaderState :=
  match lookupA st.watch_descriptors wd with
  | none => st
  | some file =>
    match lookupA st.tasks file with
    | none => st
    | some task_list => dispatchList fs addOk mask task_list st

/-- The aggregated-event loop of one work_loop iteration. -/
def processEvents (fs : List String) (addOk : Bool) :
    List (Int × Nat) → HotLoaderState → HotLoaderState
  | [], st => st
  | (wd, mask) :: rest, st =>
      processEvents fs addOk rest (processEvent fs addOk st wd mask)

/-- Outcome of one dispatcher-loop decision point. -/
inductive DispatchOutcome
  | continueLoop (st : HotLoaderState)
  | terminated (st : HotLoaderState)
  | crashed

/-- Error handling of epoll_wait in work_loop (hot_loader.h lines
331-340): EINTR retries the loop; any other error calls stop() on the
dispatcher thread itself. -/
def epoll_error_step (st : HotLoaderState) (e : Int) : DispatchOutcome :=
  if e = EINTR then .continueLoop st
  else
    match stop st true with
    | some st1 => .terminated st1
    | none => .crashed

/-- Outcome of a failed read of the notification channel. -/
inductive ReadErrOutcome
  | breakDrain
  | retryRead
  | terminated (st : HotLoaderState)
  | crashed

/-- Error handling of the inotify read in work_loop (hot_loader.h lines
352-362): EAGAIN/EWOULDBLOCK ends the drain, EINTR retries the read, any
other error calls stop() on the dispatcher thread itself. -/
def read_error_step (st : HotLoaderState) (e : Int) : ReadErrOutcome :=
  if e = EAGAIN ∨ e = EWOULDBLOCK then .breakDrain
  else if e = EINTR then .retryRead
  else
    match stop st true with
    | some st1 => .terminated st1
    | none => .crashed

/-- Entry soundness: every observer listed under a path is a live heap
object whose immutable file is that path (observers are keyed by their own
watch_file(), so an id can only ever sit in its own path's entry). -/
def EntriesOKp (h : Heap) (ts : List (String × List TaskInfo)) : Prop :=
  ∀ e ∈ ts, ∀ info ∈ e.2, heapFile h info.task = some e.1

/-- Entry uniformity: all observers of one path hold the same watch
descriptor (possibly -1 for all). -/
def EntriesUnifp (h : Heap) (ts : List (String × List TaskInfo)) : Prop :=
  ∀ e ∈ ts, ∀ i1 ∈ e.2, ∀ i2 ∈ e.2, heapWd h i1.task = heapWd h i2.task

/-- Well-formedness of a loader state: distinct registry keys, at most one
kernel watch per path, sound and uniform entries. -/
def WF (st : HotLoaderState) : Prop :=
  (st.tasks.map Prod.fst).Nodup ∧
  (st.kernelWatches.map Prod.snd).Nodup ∧
  EntriesOKp st.heap st.tasks ∧
  EntriesUnifp st.heap st.tasks

instance (h : Heap) (ts : List (String × List TaskInfo)) :
    Decidable (EntriesOKp h ts) := by
  unfold EntriesOKp
  infer_instance

instance (h : Heap) (ts : List (String × List TaskInfo)) :
    Decidable (EntriesUnifp h ts) := by
  unfold EntriesUnifp
  infer_instance

instance (st : HotLoaderState) : Decidable (WF st) := by
  unfold WF
  infer_instance

/-- The registry-mutating operations of the library, with their kernel and
filesystem oracles. -/
inductive LoaderOp
  | reg (tid : Nat) (ownership : OwnerShip) (addOk : Bool)
  | unregObs (tid : Nat)
  | unregPath (fs : List String) (file : String)
  | rewatch (fs : List String) (tid : Nat) (addOk : Bool)
  | rearm (fs : List String) (addOk : Bool)

/-- Apply one operation to the state. -/
def applyOp (st : HotLoaderState) : LoaderOp → HotLoaderState
  | .reg tid own addOk => (register_task st (some tid) own addOk).2
  | .unregObs tid => (unregister_task st (some tid)).2
  | .unregPath fs f => (unregister_task_path fs st f).2
  | .rewatch fs tid addOk => rewatch_task fs st (some tid) addOk
  | .rearm fs addOk => restart_stopped_tasks fs st addOk

/-- Apply a sequence of operations, left to right. -/
def applyOps (st : HotLoaderState) : List LoaderOp → HotLoaderState
  | [] => st
  | op :: rest => applyOps (applyOp st op) rest

/-- Whether an operation is a register_task or unregister_task(observer)
call. -/
def regUnregOnly : LoaderOp → Bool
  | .reg _ _ _ => true
  | .unregObs _ => true
  | _ => false

/-- Number of live kernel watches held for a path. -/
def watchCountFor (st : HotLoaderState) (p : String) : Nat :=
  (st.kernelWatches.map Prod.snd).count p

/-- The freshly constructed singleton state (all descriptors closed,
nothing registered, nothing running). -/
def baseState : HotLoaderState :=
  { heap := [], tasks := [], watch_descriptors := [], kernelWatches := [],
    nextWd := 1, reloads := [], inotify_fd := -1, epoll_fd := -1,
    initialized := false, running := false, worker_joinable := false }

/-- A task object watching /cfg/app.conf, as freshly constructed. -/
def appObj : TaskObj :=
  { file := "/cfg/app.conf", watch_descriptor := -1, destroyed := false }

/-- Initialized loader with two caller-owned observer objects for
/cfg/app.conf allocated on the heap. -/
def c1Start : HotLoaderState :=
  { (init baseState true true true).2 with heap := [(1, appObj), (2, appObj)] }

/-- Both observers registered on /cfg/app.conf; they share watch
descriptor 1. -/
def c1Reg : HotLoaderState :=
  (register_task (register_task c1Start (some 1) .DOESNT_OWN_TASK true).2
    (some 2) .DOESNT_OWN_TASK true).2

/-- The file has been deleted and recreated: the kernel dropped the watch
and queued an IN_IGNORED event for descriptor 1. -/
def c1AfterDelete : HotLoaderState := { c1Reg with kernelWatches := [] }

/-- A task object watching /cfg/b.conf. -/
def bObj : TaskObj :=
  { file := "/cfg/b.conf", watch_descriptor := -1, destroyed := false }

/-- Initialized loader with one caller-owned observer registered on
/cfg/b.conf (watch descriptor 1 live). -/
def c2Reg : HotLoaderState :=
  (register_task
    { (init baseState true true true).2 with heap := [(1, bObj)] }
    (some 1) .DOESNT_OWN_TASK true).2

/-- Initialized loader whose dispatcher thread is running. -/
def c3State : HotLoaderState :=
  { (init baseState true true true).2 with
      running := true, worker_joinable := true }

/-- Initialized loader holding two unregistered observer objects for
/cfg/app.conf (used as a generic well-formed starting state). -/
def c4Start : HotLoaderState := c1Start

/-- Two observers registered on /cfg/w5.conf for the dispatch witness. -/
def wObj : TaskObj :=
  { file := "/cfg/w5.conf", watch_descriptor := -1, destroyed := false }

/-- Initialized loader with observers 5 and 6 registered on
/cfg/w5.conf. -/
def c5Reg : HotLoaderState :=
  (register_task
    (register_task
      { (init baseState true true true).2 with heap := [(5, wObj), (6, wObj)] }
      (some 5) .OWN_TASK true).2
    (some 6) .DOESNT_OWN_TASK true).2

/-- Initialized loader with observer 1 registered on /cfg/app.conf and
observer 2 still unregistered. -/
def c7Start : HotLoaderState :=
  (register_task c1Start (some 1) .DOESNT_OWN_TASK true).2

/-- A task object watching /cfg/c.conf. -/
def cObj : TaskObj :=
  { file := "/cfg/c.conf", watch_descriptor := -1, destroyed := false }

/-- Initialized loader with an observer object for /cfg/c.conf allocated
but nothing registered. -/
def c8State : HotLoaderState :=
  { (init baseState true true true).2 with heap := [(1, cObj)] }

/-- Initialized loader (descriptors 3 and 4 open), nothing registered. -/
def c9InitState : HotLoaderState := (init baseState true true true).2

/-- Initialized loader with a registry-owned observer registered on
/cfg/app.conf, used for the shutdown witness. -/
def c9Reg : HotLoaderState :=
  (register_task c1Start (some 1) .OWN_TASK true).2

/-- Every registry-owned observer that was live in the starting state has
been destroyed in the final state. -/
def destroyedAll (st0 st1 : HotLoaderState) : Prop :=
  ∀ e ∈ st0.tasks, ∀ info ∈ e.2,
    info.ownership = OwnerShip.OWN_TASK →
    (heapGet st0.heap info.task).isSome = true →
    heapDestroyed st1.heap info.task = true

/-- What stop() actually achieves when called from a non-dispatcher
thread: it succeeds, the dispatcher flag and join flag are cleared, the
registry and reverse index are drained with registry-owned observers
destroyed, a second stop() is a no-op returning the same state, and the
inotify and epoll descriptors are left untouched (they are only closed by
close_file_descriptors, which the destructor calls). -/
def stopBehavior (st : HotLoaderState) : Prop :=
  match stop st false with
  | none => False
  | some st1 =>
      st1.running = false ∧ st1.worker_joinable = false ∧
      st1.tasks = [] ∧ st1.watch_descriptors = [] ∧
      st1.inotify_fd = st.inotify_fd ∧ st1.epoll_fd = st.epoll_fd ∧
      stop st1 false = some st1 ∧ destroyedAll st st1

/-- Looking up the key just inserted yields the inserted value. -/
theorem lookupA_insertA_self {α β : Type} [DecidableEq α] (m : List (α × β))
    (k : α) (v : β) : lookupA (insertA m k v) k = some v := by
  induction m with
  | nil => simp [insertA, lookupA]
  | cons e rest ih =>
    obtain ⟨a, b⟩ := e
    by_cases h : a = k
    · simp [insertA, h, lookupA]
    · simp [insertA, h, lookupA, ih]

/-- Insertion does not disturb lookups of other keys. -/
theorem lookupA_insertA_ne {α β : Type} [DecidableEq α] (m : List (α × β))
    {k k' : α} (v : β) (hk : k' ≠ k) :
    lookupA (insertA m k v) k' = lookupA m k' := by
  have hk' : ¬k = k' := fun h => hk h.symm
  induction m with
  | nil => simp [insertA, lookupA, hk']
  | cons e rest ih =>
    obtain ⟨a, b⟩ := e
    by_cases h : a = k
    · subst h
      simp [insertA, lookupA, hk']
    · by_cases h' : a = k'
      · simp [insertA, h, lookupA, h', hk]
      · simp [insertA, h, lookupA, h', ih]

/-- A successful lookup exhibits a member of the list. -/
theorem lookupA_mem {α β : Type} [DecidableEq α] {m : List (α × β)} {k : α}
    {v : β} (h : lookupA m k = some v) : (k, v) ∈ m := by
  induction m with
  | nil => simp [lookupA] at h
  | cons e rest ih =>
    obtain ⟨a, b⟩ := e
    by_cases ha : a = k
    · subst ha
      simp [lookupA] at h
      simp [h]
    · simp [lookupA, ha] at h
      exact List.mem_cons_of_mem _ (ih h)

/-- With no duplicate keys, membership determines the lookup result. -/
theorem lookupA_eq_of_mem {α β : Type} [DecidableEq α] {m : List (α × β)}
    (hn : (m.map Prod.fst).Nodup) {e : α × β} (he : e ∈ m) :
    lookupA m e.1 = some e.2 := by
  induction m with
  | nil => simp at he
  | cons e0 rest ih =>
    obtain ⟨a, b⟩ := e0
    simp only [List.map_cons, List.nodup_cons] at hn
    rcases List.mem_cons.mp he with h | h
    · subst h
      simp [lookupA]
    · have hne : a ≠ e.1 := by
        intro hcontra
        exact hn.1 (hcontra ▸ List.mem_map_of_mem Prod.fst h)
      simp [lookupA, hne, ih hn.2 h]

/-- Keys after insertion are the old keys plus the inserted one. -/
theorem mem_keys_insertA {α β : Type} [DecidableEq α] (m : List (α × β))
    (k x : α) (v : β) :
    x ∈ (insertA m k v).map Prod.fst ↔ x ∈ m.map Prod.fst ∨ x = k := by
  induction m with
  | nil => simp [insertA]
  | cons e rest ih =>
    obtain ⟨a, b⟩ := e
    by_cases h : a = k
    · subst h
      constructor
      · intro hx
        simp [insertA] at hx
        rcases hx with hx | hx
        · exact Or.inr hx
        · exact Or.inl (by simp [hx])
      · intro hx
        rcases hx with hx | hx
        · simp at hx
          rcases hx with hx | hx
          · simp [insertA, hx]
          · simp [insertA, hx]
        · simp [insertA, hx]
    · simp only [insertA, if_neg h, List.map_cons, List.mem_cons]
      rw [ih]
      tauto

/-- Insertion preserves distinctness of keys. -/
theorem nodup_keys_insertA {α β : Type} [DecidableEq α] (m : List (α × β))
    (k : α) (v : β) (hn : (m.map Prod.fst).Nodup) :
    ((insertA m k v).map Prod.fst).Nodup := by
  induction m with
  | nil => simp [insertA]
  | cons e rest ih =>
    obtain ⟨a, b⟩ := e
    simp only [List.map_cons, List.nodup_cons] at hn
    by_cases h : a = k
    · subst h
      have hrw : insertA ((a, b) :: rest) a v = (a, v) :: rest := by
        simp [insertA]
      rw [hrw]
      simp only [List.map_cons, List.nodup_cons]
      exact ⟨hn.1, hn.2⟩
    · simp only [insertA, if_neg h, List.map_cons, List.nodup_cons]
      refine ⟨?_, ih hn.2⟩
      intro hcontra
      rcases (mem_keys_insertA rest k a v).mp hcontra with hx | hx
      · exact hn.1 hx
      · exact h hx

/-- Erasing a key yields a sublist. -/
theorem eraseA_sublist {α β : Type} [DecidableEq α] (m : List (α × β))
    (k : α) : (eraseA m k).Sublist m := by
  induction m with
  | nil => simp [eraseA]
  | cons e rest ih =>
    obtain ⟨a, b⟩ := e
    by_cases h : a = k
    · simp only [eraseA, if_pos h]
      exact List.sublist_cons_self _ _
    · simp only [eraseA, if_neg h]
      exact List.Sublist.cons₂ _ ih

/-- Members of the erased list were members before. -/
theorem mem_eraseA {α β : Type} [DecidableEq α] {m : List (α × β)} {k : α}
    {e : α × β} (h : e ∈ eraseA m k) : e ∈ m :=
  (eraseA_sublist m k).mem h

/-- With distinct keys, erasing a key removes every binding of it. -/
theorem eraseA_key_ne {α β : Type} [DecidableEq α] {m : List (α × β)}
    (hn : (m.map Prod.fst).Nodup) {k : α} {e : α × β}
    (he : e ∈ eraseA m k) : e.1 ≠ k := by
  induction m with
  | nil => simp [eraseA] at he
  | cons e0 rest ih =>
    obtain ⟨a, b⟩ := e0
    simp only [List.map_cons, List.nodup_cons] at hn
    by_cases h : a = k
    · subst h
      simp only [eraseA, if_pos rfl] at he
      intro hcontra
      exact hn.1 (hcontra ▸ List.mem_map_of_mem Prod.fst he)
    · simp only [eraseA, if_neg h] at he
      rcases List.mem_cons.mp he with h0 | h0
      · subst h0
        exact h
      · exact ih hn.2 h0

/-- With distinct keys, a member after insertion is the new binding or an
old binding of a different key. -/
theorem mem_insertA {α β : Type} [DecidableEq α] {m : List (α × β)}
    (hn : (m.map Prod.fst).Nodup) {k : α} {v : β} {e : α × β}
    (he : e ∈ insertA m k v) : e = (k, v) ∨ (e ∈ m ∧ e.1 ≠ k) := by
  induction m with
  | nil => simp [insertA] at he; exact Or.inl he
  | cons e0 rest ih =>
    obtain ⟨a, b⟩ := e0
    simp only [List.map_cons, List.nodup_cons] at hn
    by_cases h : a = k
    · subst h
      simp only [insertA, if_pos rfl] at he
      rcases List.mem_cons.mp he with h0 | h0
      · exact Or.inl h0
      · right
        refine ⟨List.mem_cons_of_mem _ h0, ?_⟩
        intro hcontra
        exact hn.1 (hcontra ▸ List.mem_map_of_mem Prod.fst h0)
    · simp only [insertA, if_neg h] at he
      rcases List.mem_cons.mp he with h0 | h0
      · subst h0
        exact Or.inr ⟨List.mem_cons_self _ _, h⟩
      · rcases ih hn.2 h0 with h1 | h1
        · exact Or.inl h1
        · exact Or.inr ⟨List.mem_cons_of_mem _ h1.1, h1.2⟩

/-- Effect of heapModify on lookups. -/
theorem lookupA_heapModify (h : Heap) (tid : Nat) (f : TaskObj → TaskObj)
    (k : Nat) :
    lookupA (heapModify h tid f) k =
      if k = tid then (lookupA h tid).map f else lookupA h k := by
  induction h with
  | nil => simp [heapModify, lookupA]
  | cons e rest ih =>
    obtain ⟨a, o⟩ := e
    by_cases ha : a = tid
    · subst ha
      by_cases hk : a = k
      · subst hk
        simp [heapModify, lookupA]
      · have hk' : ¬k = a := fun hc => hk hc.symm
        simp [heapModify, lookupA, hk, hk', ih]
    · by_cases hk : a = k
      · subst hk
        have ha' : ¬a = tid := ha
        simp [heapModify, lookupA, ha']
      · simp [heapModify, lookupA, ha, hk, ih]

/-- heapGet version of lookupA_heapModify. -/
theorem heapGet_heapModify (h : Heap) (tid : Nat) (f : TaskObj → TaskObj)
    (k : Nat) :
    heapGet (heapModify h tid f) k =
      if k = tid then (heapGet h tid).map f else heapGet h k :=
  lookupA_heapModify h tid f k

/-- A field update that keeps the file leaves heapFile unchanged. -/
theorem heapFile_heapModify (h : Heap) (tid : Nat) (f : TaskObj → TaskObj)
    (hf : ∀ o, (f o).file = o.file) (k : Nat) :
    heapFile (heapModify h tid f) k = heapFile h k := by
  unfold heapFile
  rw [heapGet_heapModify]
  by_cases hk : k = tid
  · subst hk
    cases heapGet h k <;> simp [hf]
  · simp [hk]

/-- Setting a watch descriptor never changes the watched file. -/
theorem heapFile_setWd (h : Heap) (tid : Nat) (w : Int) (k : Nat) :
    heapFile (heapModify h tid (setWdO w)) k = heapFile h k :=
  heapFile_heapModify h tid (setWdO w) (fun _ => rfl) k

/-- Destroying an object never changes the watched file. -/
theorem heapFile_destroy (h : Heap) (tid : Nat) (k : Nat) :
    heapFile (heapModify h tid destroyO) k = heapFile h k :=
  heapFile_heapModify h tid destroyO (fun _ => rfl) k

/-- Modifying one task leaves the descriptors of the others alone. -/
theorem heapWd_heapModify_ne (h : Heap) (tid : Nat) (f : TaskObj → TaskObj)
    {k : Nat} (hk : k ≠ tid) :
    heapWd (heapModify h tid f) k = heapWd h k := by
  unfold heapWd
  rw [heapGet_heapModify]
  simp [hk]

/-- Setting the descriptor of a live task stores that descriptor. -/
theorem heapWd_setWd_self (h : Heap) (tid : Nat) (w : Int)
    (hs : (heapGet h tid).isSome = true) :
    heapWd (heapModify h tid (setWdO w)) tid = w := by
  unfold heapWd
  rw [heapGet_heapModify]
  cases hg : heapGet h tid with
  | none => rw [hg] at hs; simp at hs
  | some o => simp [setWdO]

/-- Destroying an object does not change any descriptor. -/
theorem heapWd_destroy (h : Heap) (tid : Nat) (k : Nat) :
    heapWd (heapModify h tid destroyO) k = heapWd h k := by
  unfold heapWd
  rw [heapGet_heapModify]
  by_cases hk : k = tid
  · subst hk
    cases heapGet h k <;> simp [destroyO]
  · simp [hk]

/-- heapModify preserves which ids are live in the heap. -/
theorem heapGet_isSome_heapModify (h : Heap) (tid : Nat)
    (f : TaskObj → TaskObj) (k : Nat) :
    (heapGet (heapModify h tid f) k).isSome = (heapGet h k).isSome := by
  rw [heapGet_heapModify]
  by_cases hk : k = tid
  · subst hk
    cases heapGet h k <;> simp
  · simp [hk]

/-- Setting a descriptor does not change the destroyed flag. -/
theorem heapDestroyed_setWd (h : Heap) (tid : Nat) (w : Int) (k : Nat) :
    heapDestroyed (heapModify h tid (setWdO w)) k = heapDestroyed h k := by
  unfold heapDestroyed
  rw [heapGet_heapModify]
  by_cases hk : k = tid
  · subst hk
    cases heapGet h k <;> simp [setWdO]
  · simp [hk]

/-- Destroying an object keeps every already-destroyed object destroyed. -/
theorem heapDestroyed_destroy_mono (h : Heap) (tid : Nat) {k : Nat}
    (hk : heapDestroyed h k = true) :
    heapDestroyed (heapModify h tid destroyO) k = true := by
  unfold heapDestroyed at hk ⊢
  rw [heapGet_heapModify]
  by_cases hkt : k = tid
  · subst hkt
    cases hg : heapGet h k with
    | none => rw [hg] at hk; simp at hk
    | some o => simp [destroyO]
  · simp [hkt, hk]

/-- Destroying a live object marks it destroyed. -/
theorem heapDestroyed_destroy_self (h : Heap) (tid : Nat)
    (hs : (heapGet h tid).isSome = true) :
    heapDestroyed (heapModify h tid destroyO) tid = true := by
  unfold heapDestroyed
  rw [heapGet_heapModify]
  cases hg : heapGet h tid with
  | none => rw [hg] at hs; simp at hs
  | some o => simp [destroyO]

/-- setWdHeap never changes watched files. -/
theorem heapFile_setWdHeap (w : Int) (l : List TaskInfo) (h : Heap) (k : Nat) :
    heapFile (setWdHeap w l h) k = heapFile h k := by
  induction l generalizing h with
  | nil => simp [setWdHeap]
  | cons info rest ih => simp [setWdHeap, ih, heapFile_setWd]

/-- setWdHeap preserves which ids are live. -/
theorem heapGet_isSome_setWdHeap (w : Int) (l : List TaskInfo) (h : Heap)
    (k : Nat) :
    (heapGet (setWdHeap w l h) k).isSome = (heapGet h k).isSome := by
  induction l generalizing h with
  | nil => simp [setWdHeap]
  | cons info rest ih => simp [setWdHeap, ih, heapGet_isSome_heapModify]

/-- setWdHeap leaves tasks outside the list alone. -/
theorem heapWd_setWdHeap_notmem (w : Int) (l : List TaskInfo) (h : Heap)
    {k : Nat} (hk : k ∉ l.map TaskInfo.task) :
    heapWd (setWdHeap w l h) k = heapWd h k := by
  induction l generalizing h with
  | nil => simp [setWdHeap]
  | cons info rest ih =>
    simp only [List.map_cons, List.mem_cons] at hk
    push_neg at hk
    simp only [setWdHeap]
    rw [ih _ hk.2, heapWd_heapModify_ne _ _ _ hk.1]

/-- setWdHeap gives every live listed task the new descriptor. -/
theorem heapWd_setWdHeap_mem (w : Int) (l : List TaskInfo) (h : Heap)
    {k : Nat} (hk : k ∈ l.map TaskInfo.task)
    (hs : (heapGet h k).isSome = true) :
    heapWd (setWdHeap w l h) k = w := by
  induction l generalizing h with
  | nil => simp at hk
  | cons info rest ih =>
    simp only [List.map_cons, List.mem_cons] at hk
    by_cases hmem : k ∈ rest.map TaskInfo.task
    · simp only [setWdHeap]
      refine ih _ hmem ?_
      rw [heapGet_isSome_heapModify]
      exact hs
    · rcases hk with hk | hk
      · subst hk
        simp only [setWdHeap]
        rw [heapWd_setWdHeap_notmem w rest _ hmem]
        exact heapWd_setWd_self h info.task w hs
      · exact absurd hk hmem

/-- setWdHeap does not change destroyed flags. -/
theorem heapDestroyed_setWdHeap (w : Int) (l : List TaskInfo) (h : Heap)
    (k : Nat) :
    heapDestroyed (setWdHeap w l h) k = heapDestroyed h k := by
  induction l generalizing h with
  | nil => simp [setWdHeap]
  | cons info rest ih => simp [setWdHeap, ih, heapDestroyed_setWd]

/-- detachHeap never changes watched files. -/
theorem heapFile_detachHeap (l : List TaskInfo) (h : Heap) (k : Nat) :
    heapFile (detachHeap l h) k = heapFile h k := by
  induction l generalizing h with
  | nil => simp [detachHeap]
  | cons info rest ih =>
    simp only [detachHeap]
    by_cases ho : info.ownership = OwnerShip.OWN_TASK
    · simp [ho, ih, heapFile_destroy, heapFile_setWd]
    · simp [ho, ih, heapFile_setWd]

/-- detachHeap leaves tasks outside the list alone. -/
theorem heapWd_detachHeap_notmem (l : List TaskInfo) (h : Heap) {k : Nat}
    (hk : k ∉ l.map TaskInfo.task) :
    heapWd (detachHeap l h) k = heapWd h k := by
  induction l generalizing h with
  | nil => simp [detachHeap]
  | cons info rest ih =>
    simp only [List.map_cons, List.mem_cons] at hk
    push_neg at hk
    simp only [detachHeap]
    by_cases ho : info.ownership = OwnerShip.OWN_TASK
    · rw [if_pos ho, ih _ hk.2, heapWd_destroy, heapWd_heapModify_ne _ _ _ hk.1]
    · rw [if_neg ho, ih _ hk.2, heapWd_heapModify_ne _ _ _ hk.1]

/-- reloadSetAll decomposes into the descriptor updates plus the reload
log extension, in observer order. -/
theorem reloadSetAll_eq (w : Int) (l : List TaskInfo) (st : HotLoaderState) :
    reloadSetAll w l st =
      { st with heap := setWdHeap w l st.heap,
                reloads := st.reloads ++ l.map TaskInfo.task } := by
  induction l generalizing st with
  | nil => simp [reloadSetAll, setWdHeap]
  | cons info rest ih =>
    simp only [reloadSetAll, setWdHeap, List.map_cons]
    rw [ih]
    simp [List.append_assoc]

/-- On a mask without IN_IGNORED, dispatch reloads every observer of the
entry in order and changes nothing else. -/
theorem dispatchList_reload (fs : List String) (addOk : Bool) (mask : Nat)
    (hmask : mask.land IN_IGNORED = 0) (l : List TaskInfo)
    (st : HotLoaderState) :
    dispatchList fs addOk mask l st =
      { st with reloads := st.reloads ++ l.map TaskInfo.task } := by
  induction l generalizing st with
  | nil => simp [dispatchList]
  | cons info rest ih =>
    simp only [dispatchList, hmask, ne_eq, not_true_eq_false, if_neg,
      List.map_cons]
    rw [if_neg (by simp [hmask])]
    rw [ih]
    simp [on_reload, List.append_assoc]

/-- A task with a known file is live in the heap. -/
theorem heapFile_isSome {h : Heap} {t : Nat} {f : String}
    (hf : heapFile h t = some f) : (heapGet h t).isSome = true := by
  unfold heapFile at hf
  cases hg : heapGet h t with
  | none => rw [hg] at hf; simp at hf
  | some o => simp

/-- Inserting twice under the same key keeps only the second value. -/
theorem insertA_insertA {α β : Type} [DecidableEq α] (m : List (α × β))
    (k : α) (v1 v2 : β) : insertA (insertA m k v1) k v2 = insertA m k v2 := by
  induction m with
  | nil => simp [insertA]
  | cons e rest ih =>
    obtain ⟨a, b⟩ := e
    by_cases h : a = k
    · subst h
      simp [insertA]
    · simp [insertA, h, ih]

/-- When the key is present, map indexing changes nothing. -/
theorem getOrInsertEmpty_of_some {m : List (String × List TaskInfo)}
    {k : String} {l : List TaskInfo} (h : lookupA m k = some l) :
    getOrInsertEmpty m k = m := by
  unfold getOrInsertEmpty
  rw [h]

/-- When the key is absent, map indexing appends an empty entry. -/
theorem getOrInsertEmpty_of_none {m : List (String × List TaskInfo)}
    {k : String} (h : lookupA m k = none) :
    getOrInsertEmpty m k = insertA m k [] := by
  unfold getOrInsertEmpty
  rw [h]

/-- Observers sitting under a different path than `f` never appear in the
entry of `f`: their immutable file differs. -/
theorem task_not_in_entry {h : Heap} {ts : List (String × List TaskInfo)}
    (hOK : EntriesOKp h ts) {f : String} {l : List TaskInfo}
    (hl : lookupA ts f = some l) {e : String × List TaskInfo} (he : e ∈ ts)
    (hef : e.1 ≠ f) {info : TaskInfo} (hinfo : info ∈ e.2) :
    info.task ∉ l.map TaskInfo.task := by
  intro hmem
  obtain ⟨info2, h2, heq⟩ := List.mem_map.mp hmem
  have h3 := hOK _ (lookupA_mem hl) info2 h2
  have h4 := hOK e he info hinfo
  rw [heq, h4] at h3
  exact hef (Option.some.inj h3)

/-- With distinct keys, a member whose key has a known binding carries
that binding. -/
theorem entry_value_eq {ts : List (String × List TaskInfo)}
    (hn : (ts.map Prod.fst).Nodup) {e : String × List TaskInfo} (he : e ∈ ts)
    {f : String} {l : List TaskInfo} (hl : lookupA ts f = some l)
    (hef : e.1 = f) : e.2 = l := by
  have h0 := lookupA_eq_of_mem hn he
  rw [hef, hl] at h0
  exact (Option.some.inj h0).symm

/-- Entry soundness survives re-arming an entry's descriptors. -/
theorem EntriesOKp_setWdHeap {h : Heap} {ts : List (String × List TaskInfo)}
    (w : Int) (l : List TaskInfo) (hOK : EntriesOKp h ts) :
    EntriesOKp (setWdHeap w l h) ts := by
  intro e he info hinfo
  rw [heapFile_setWdHeap]
  exact hOK e he info hinfo

/-- Setting one entry's descriptors to a single value keeps every entry
uniform. -/
theorem EntriesUnifp_setWdHeap {h : Heap} {ts : List (String × List TaskInfo)}
    (w : Int) {f : String} {l : List TaskInfo}
    (hn : (ts.map Prod.fst).Nodup) (hOK : EntriesOKp h ts)
    (hU : EntriesUnifp h ts) (hl : lookupA ts f = some l) :
    EntriesUnifp (setWdHeap w l h) ts := by
  intro e he i1 h1 i2 h2
  by_cases hef : e.1 = f
  · have hev : e.2 = l := entry_value_eq hn he hl hef
    rw [hev] at h1 h2
    have hs1 : (heapGet h i1.task).isSome = true := by
      have := hOK _ (lookupA_mem hl) i1 h1
      exact heapFile_isSome this
    have hs2 : (heapGet h i2.task).isSome = true := by
      have := hOK _ (lookupA_mem hl) i2 h2
      exact heapFile_isSome this
    rw [heapWd_setWdHeap_mem w l h (List.mem_map_of_mem TaskInfo.task h1) hs1,
        heapWd_setWdHeap_mem w l h (List.mem_map_of_mem TaskInfo.task h2) hs2]
  · have n1 := task_not_in_entry hOK hl he hef h1
    have n2 := task_not_in_entry hOK hl he hef h2
    rw [heapWd_setWdHeap_notmem w l h n1, heapWd_setWdHeap_notmem w l h n2]
    exact hU e he i1 h1 i2 h2

/-- Entry soundness survives bulk detachment plus removal of the entry. -/
theorem EntriesOKp_eraseA_detach {h : Heap}
    {ts : List (String × List TaskInfo)} {nf : String} {l : List TaskInfo}
    (hOK : EntriesOKp h ts) :
    EntriesOKp (detachHeap l h) (eraseA ts nf) := by
  intro e he info hinfo
  rw [heapFile_detachHeap]
  exact hOK e (mem_eraseA he) info hinfo

/-- Uniformity survives bulk detachment of one entry plus its removal:
the detached ids appear in no other entry. -/
theorem EntriesUnifp_eraseA_detach {h : Heap}
    {ts : List (String × List TaskInfo)} {nf : String} {l : List TaskInfo}
    (hn : (ts.map Prod.fst).Nodup) (hOK : EntriesOKp h ts)
    (hU : EntriesUnifp h ts) (hl : lookupA ts nf = some l) :
    EntriesUnifp (detachHeap l h) (eraseA ts nf) := by
  intro e he i1 h1 i2 h2
  have hef := eraseA_key_ne hn he
  have hem := mem_eraseA he
  have n1 := task_not_in_entry hOK hl hem hef h1
  have n2 := task_not_in_entry hOK hl hem hef h2
  rw [heapWd_detachHeap_notmem l h n1, heapWd_detachHeap_notmem l h n2]
  exact hU e hem i1 h1 i2 h2

/-- inotify_add_watch keeps kernel watch paths distinct: an existing watch
is reused, a new one is created only for an unwatched path. -/
theorem nodup_kernelAddWatch (st : HotLoaderState) (p : String)
    (hk : (st.kernelWatches.map Prod.snd).Nodup) :
    (((kernelAddWatch st p).2).kernelWatches.map Prod.snd).Nodup := by
  unfold kernelAddWatch
  cases hf : st.kernelWatches.find? (fun e => e.2 == p) with
  | some e => simpa
  | none =>
    simp only [List.map_cons, List.nodup_cons]
    refine ⟨?_, hk⟩
    intro hmem
    obtain ⟨e, he, heq⟩ := List.mem_map.mp hmem
    have hne := List.find?_eq_none.mp hf e he
    simp [heq] at hne

/-- inotify_rm_watch keeps kernel watch paths distinct. -/
theorem nodup_inotify_rm_watch (st : HotLoaderState) (wd : Int)
    (hk : (st.kernelWatches.map Prod.snd).Nodup) :
    ((inotify_rm_watch st wd).kernelWatches.map Prod.snd).Nodup := by
  unfold inotify_rm_watch
  exact hk.sublist ((List.filter_sublist _).map Prod.snd)

/-- Core registration effect: appending a fresh observer of `file` to the
entry list, with its descriptor set to the entry's shared descriptor,
preserves all registry invariants. -/
theorem WF_core_append (h : Heap) (ts : List (String × List TaskInfo))
    (file : String) (l : List TaskInfo) (tid : Nat) (own : OwnerShip)
    (wd : Int) (hn : (ts.map Prod.fst).Nodup) (hOK : EntriesOKp h ts)
    (hU : EntriesUnifp h ts) (hfile : heapFile h tid = some file)
    (hlfile : ∀ i ∈ l, heapFile h i.task = some file)
    (hnotin : tid ∉ l.map TaskInfo.task)
    (hwd : ∀ i ∈ l, heapWd h i.task = wd) :
    ((insertA ts file (l ++ [TaskInfo.mk tid own])).map Prod.fst).Nodup ∧
    EntriesOKp (heapModify h tid (setWdO wd))
      (insertA ts file (l ++ [TaskInfo.mk tid own])) ∧
    EntriesUnifp (heapModify h tid (setWdO wd))
      (insertA ts file (l ++ [TaskInfo.mk tid own])) := by
  have hfiles : ∀ {e : String × List TaskInfo}, e ∈ ts → e.1 ≠ file →
      ∀ {info : TaskInfo}, info ∈ e.2 → info.task ≠ tid := by
    intro e he hef info hinfo hcontra
    have h4 := hOK e he info hinfo
    rw [hcontra, hfile] at h4
    exact hef (Option.some.inj h4).symm
  have hlne : ∀ {i : TaskInfo}, i ∈ l → i.task ≠ tid := by
    intro i hi hcontra
    exact hnotin (hcontra ▸ List.mem_map_of_mem TaskInfo.task hi)
  have hwd2 : ∀ {i : TaskInfo}, i ∈ l ++ [TaskInfo.mk tid own] →
      heapWd (heapModify h tid (setWdO wd)) i.task = wd := by
    intro i hi
    rcases List.mem_append.mp hi with hi | hi
    · rw [heapWd_heapModify_ne h tid (setWdO wd) (hlne hi)]
      exact hwd i hi
    · simp only [List.mem_singleton] at hi
      subst hi
      exact heapWd_setWd_self h tid wd (heapFile_isSome hfile)
  refine ⟨nodup_keys_insertA ts file _ hn, ?_, ?_⟩
  · intro e he info hinfo
    rw [heapFile_heapModify h tid (setWdO wd) (fun _ => rfl)]
    rcases mem_insertA hn he with he0 | he0
    · rcases List.mem_append.mp (he0 ▸ hinfo) with hi | hi
      · rw [he0]
        exact hlfile info hi
      · simp only [List.mem_singleton] at hi
        subst hi
        rw [he0]
        exact hfile
    · exact hOK e he0.1 info hinfo
  · intro e he i1 h1 i2 h2
    rcases mem_insertA hn he with he0 | he0
    · have h1' : i1 ∈ l ++ [TaskInfo.mk tid own] := by rw [he0] at h1; exact h1
      have h2' : i2 ∈ l ++ [TaskInfo.mk tid own] := by rw [he0] at h2; exact h2
      rw [hwd2 h1', hwd2 h2']
    · rw [heapWd_heapModify_ne h tid (setWdO wd) (hfiles he0.1 he0.2 h1),
          heapWd_heapModify_ne h tid (setWdO wd) (hfiles he0.1 he0.2 h2)]
      exact hU e he0.1 i1 h1 i2 h2

/-- kernelAddWatch does not touch the heap. -/
theorem kernelAddWatch_heap (st : HotLoaderState) (p : String) :
    ((kernelAddWatch st p).2).heap = st.heap := by
  unfold kernelAddWatch
  cases st.kernelWatches.find? (fun e => e.2 == p) <;> rfl

/-- kernelAddWatch does not touch the registry. -/
theorem kernelAddWatch_tasks (st : HotLoaderState) (p : String) :
    ((kernelAddWatch st p).2).tasks = st.tasks := by
  unfold kernelAddWatch
  cases st.kernelWatches.find? (fun e => e.2 == p) <;> rfl

/-- kernelAddWatch does not touch the reverse index. -/
theorem kernelAddWatch_wdidx (st : HotLoaderState) (p : String) :
    ((kernelAddWatch st p).2).watch_descriptors = st.watch_descriptors := by
  unfold kernelAddWatch
  cases st.kernelWatches.find? (fun e => e.2 == p) <;> rfl

/-- Inserting an empty entry preserves the registry invariants. -/
theorem WF_insert_empty (h : Heap) (ts : List (String × List TaskInfo))
    (file : String) (hn : (ts.map Prod.fst).Nodup) (hOK : EntriesOKp h ts)
    (hU : EntriesUnifp h ts) :
    ((insertA ts file ([] : List TaskInfo)).map Prod.fst).Nodup ∧
    EntriesOKp h (insertA ts file []) ∧
    EntriesUnifp h (insertA ts file []) := by
  refine ⟨nodup_keys_insertA ts file _ hn, ?_, ?_⟩
  · intro e he info hinfo
    rcases mem_insertA hn he with he0 | he0
    · rw [he0] at hinfo
      simp at hinfo
    · exact hOK e he0.1 info hinfo
  · intro e he i1 h1 i2 h2
    rcases mem_insertA hn he with he0 | he0
    · rw [he0] at h1
      simp at h1
    · exact hU e he0.1 i1 h1 i2 h2

/-- A failed duplicate check means the id is not yet in the entry. -/
theorem notin_of_any_false {l : List TaskInfo} {tid : Nat}
    (h : ¬ l.any (fun info => info.task == tid) = true) :
    tid ∉ l.map TaskInfo.task := by
  intro hmem
  obtain ⟨i, hi, heq⟩ := List.mem_map.mp hmem
  exact h (List.any_eq_true.mpr ⟨i, hi, by simp [heq]⟩)

/-- register_task preserves the registry invariants. -/
theorem WF_register (st : HotLoaderState) (t : Option Nat) (own : OwnerShip)
    (a : Bool) (h : WF st) : WF (register_task st t own a).2 := by
  obtain ⟨hn, hk, hOK, hU⟩ := h
  cases t with
  | none => exact ⟨hn, hk, hOK, hU⟩
  | some tid =>
    simp only [register_task]
    by_cases hi : st.initialized = false
    · rw [if_pos hi]
      exact ⟨hn, hk, hOK, hU⟩
    · rw [if_neg hi]
      cases hg : heapGet st.heap tid with
      | none => exact ⟨hn, hk, hOK, hU⟩
      | some obj =>
        dsimp only
        have hfile : heapFile st.heap tid = some obj.file := by
          unfold heapFile
          rw [hg]
          rfl
        cases hl : lookupA st.tasks obj.file with
        | some l =>
          rw [getOrInsertEmpty_of_some hl, hl]
          dsimp only [Option.getD]
          by_cases hdup : l.any (fun info => info.task == tid) = true
          · rw [if_pos hdup]
            exact ⟨hn, hk, hOK, hU⟩
          · rw [if_neg hdup]
            have hnotin := notin_of_any_false hdup
            cases l with
            | nil =>
              dsimp only
              by_cases ha : a = true
              · rw [if_pos ha]
                dsimp only
                rw [kernelAddWatch_heap, kernelAddWatch_tasks]
                have hcore := WF_core_append st.heap st.tasks obj.file []
                  tid own (kernelAddWatch { st with tasks := st.tasks }
                    obj.file).1 hn hOK hU hfile
                  (by intro i hi; simp at hi)
                  (by simp)
                  (by intro i hi; simp at hi)
                rw [List.nil_append] at hcore
                exact ⟨hcore.1,
                  nodup_kernelAddWatch { st with tasks := st.tasks } obj.file hk,
                  hcore.2.1, hcore.2.2⟩
              · rw [if_neg ha]
                exact ⟨hn, hk, hOK, hU⟩
            | cons info0 l' =>
              dsimp only
              have hwd : ∀ i ∈ info0 :: l',
                  heapWd st.heap i.task = heapWd st.heap info0.task :=
                fun i hi => hU (obj.file, info0 :: l') (lookupA_mem hl) i hi
                  info0 (List.mem_cons_self _ _)
              have hlfile : ∀ i ∈ info0 :: l',
                  heapFile st.heap i.task = some obj.file :=
                fun i hi => hOK (obj.file, info0 :: l') (lookupA_mem hl) i hi
              exact ⟨(WF_core_append st.heap st.tasks obj.file (info0 :: l')
                  tid own (heapWd st.heap info0.task) hn hOK hU hfile hlfile
                  hnotin hwd).1,
                hk,
                (WF_core_append st.heap st.tasks obj.file (info0 :: l')
                  tid own (heapWd st.heap info0.task) hn hOK hU hfile hlfile
                  hnotin hwd).2.1,
                (WF_core_append st.heap st.tasks obj.file (info0 :: l')
                  tid own (heapWd st.heap info0.task) hn hOK hU hfile hlfile
                  hnotin hwd).2.2⟩
        | none =>
          rw [getOrInsertEmpty_of_none hl, lookupA_insertA_self]
          dsimp only [Option.getD]
          rw [if_neg (by simp)]
          by_cases ha : a = true
          · rw [if_pos ha]
            dsimp only
            rw [kernelAddWatch_heap, kernelAddWatch_tasks, insertA_insertA]
            have hcore := WF_core_append st.heap st.tasks obj.file []
              tid own (kernelAddWatch
                { st with tasks := insertA st.tasks obj.file [] } obj.file).1
              hn hOK hU hfile
              (by intro i hi; simp at hi)
              (by simp)
              (by intro i hi; simp at hi)
            rw [List.nil_append] at hcore
            exact ⟨hcore.1,
              nodup_kernelAddWatch
                { st with tasks := insertA st.tasks obj.file [] } obj.file hk,
              hcore.2.1, hcore.2.2⟩
          · rw [if_neg ha]
            have hie := WF_insert_empty st.heap st.tasks obj.file hn hOK hU
            exact ⟨hie.1, hk, hie.2.1, hie.2.2⟩

/-- Erasing an observer from a slot list yields a sublist. -/
theorem eraseTaskInfo_sublist (l : List TaskInfo) (tid : Nat) :
    (eraseTaskInfo l tid).Sublist l := by
  induction l with
  | nil => simp [eraseTaskInfo]
  | cons info rest ih =>
    by_cases h : info.task = tid
    · simp only [eraseTaskInfo, if_pos h]
      exact List.sublist_cons_self _ _
    · simp only [eraseTaskInfo, if_neg h]
      exact List.Sublist.cons₂ _ ih

/-- Components of the reload-and-set fold. -/
theorem reloadSetAll_tasks (w : Int) (l : List TaskInfo)
    (st : HotLoaderState) : (reloadSetAll w l st).tasks = st.tasks := by
  rw [reloadSetAll_eq]

/-- The reload-and-set fold leaves the kernel watches alone. -/
theorem reloadSetAll_kernel (w : Int) (l : List TaskInfo)
    (st : HotLoaderState) :
    (reloadSetAll w l st).kernelWatches = st.kernelWatches := by
  rw [reloadSetAll_eq]

/-- The reload-and-set fold rewrites the heap through setWdHeap. -/
theorem reloadSetAll_heap (w : Int) (l : List TaskInfo)
    (st : HotLoaderState) : (reloadSetAll w l st).heap = setWdHeap w l st.heap := by
  rw [reloadSetAll_eq]

/-- unregister_task(observer) preserves the registry invariants. -/
theorem WF_unregister (st : HotLoaderState) (t : Option Nat) (h : WF st) :
    WF (unregister_task st t).2 := by
  obtain ⟨hn, hk, hOK, hU⟩ := h
  cases t with
  | none => exact ⟨hn, hk, hOK, hU⟩
  | some tid =>
    simp only [unregister_task]
    by_cases hi : st.initialized = false
    · rw [if_pos hi]
      exact ⟨hn, hk, hOK, hU⟩
    · rw [if_neg hi]
      cases hg : heapGet st.heap tid with
      | none => exact ⟨hn, hk, hOK, hU⟩
      | some obj =>
        dsimp only
        cases hl : lookupA st.tasks obj.file with
        | none => exact ⟨hn, hk, hOK, hU⟩
        | some task_list =>
          dsimp only
          by_cases hemp : task_list = []
          · rw [if_pos hemp]
            exact ⟨hn, hk, hOK, hU⟩
          · rw [if_neg hemp]
            cases hfind : findInfo task_list tid with
            | none => exact ⟨hn, hk, hOK, hU⟩
            | some info =>
              dsimp only
              have hOK1 : ∀ h1 : Heap,
                  (∀ k, heapFile h1 k = heapFile st.heap k) →
                  EntriesOKp h1 (eraseA st.tasks obj.file) := by
                intro h1 hpres e he i hi
                rw [hpres]
                exact hOK e (mem_eraseA he) i hi
              have hU1 : ∀ h1 : Heap,
                  (∀ k, heapWd h1 k = heapWd st.heap k) →
                  EntriesUnifp h1 (eraseA st.tasks obj.file) := by
                intro h1 hpres e he i1 hi1 i2 hi2
                rw [hpres, hpres]
                exact hU e (mem_eraseA he) i1 hi1 i2 hi2
              have hOK2 : ∀ h1 : Heap,
                  (∀ k, heapFile h1 k = heapFile st.heap k) →
                  EntriesOKp h1
                    (insertA st.tasks obj.file (eraseTaskInfo task_list tid)) := by
                intro h1 hpres e he i hi
                rw [hpres]
                rcases mem_insertA hn he with he0 | he0
                · have hi' : i ∈ task_list := by
                    rw [he0] at hi
                    exact (eraseTaskInfo_sublist task_list tid).mem hi
                  rw [he0]
                  exact hOK (obj.file, task_list) (lookupA_mem hl) i hi'
                · exact hOK e he0.1 i hi
              have hU2 : ∀ h1 : Heap,
                  (∀ k, heapWd h1 k = heapWd st.heap k) →
                  EntriesUnifp h1
                    (insertA st.tasks obj.file (eraseTaskInfo task_list tid)) := by
                intro h1 hpres e he i1 hi1 i2 hi2
                rw [hpres, hpres]
                rcases mem_insertA hn he with he0 | he0
                · have hi1' : i1 ∈ task_list := by
                    rw [he0] at hi1
                    exact (eraseTaskInfo_sublist task_list tid).mem hi1
                  have hi2' : i2 ∈ task_list := by
                    rw [he0] at hi2
                    exact (eraseTaskInfo_sublist task_list tid).mem hi2
                  exact hU (obj.file, task_list) (lookupA_mem hl) i1 hi1' i2 hi2'
                · exact hU e he0.1 i1 hi1 i2 hi2
              by_cases hown : info.ownership = OwnerShip.OWN_TASK
              · rw [if_pos hown]
                by_cases hrest : eraseTaskInfo task_list tid = []
                · rw [if_pos hrest]
                  by_cases hwd0 : obj.watch_descriptor ≥ 0
                  · rw [if_pos hwd0]
                    exact ⟨hn.sublist ((eraseA_sublist _ _).map Prod.fst),
                      nodup_inotify_rm_watch _ _ hk,
                      hOK1 _ (heapFile_destroy st.heap tid),
                      hU1 _ (heapWd_destroy st.heap tid)⟩
                  · rw [if_neg hwd0]
                    exact ⟨hn.sublist ((eraseA_sublist _ _).map Prod.fst), hk,
                      hOK1 _ (heapFile_destroy st.heap tid),
                      hU1 _ (heapWd_destroy st.heap tid)⟩
                · rw [if_neg hrest]
                  exact ⟨nodup_keys_insertA _ _ _ hn, hk,
                    hOK2 _ (heapFile_destroy st.heap tid),
                    hU2 _ (heapWd_destroy st.heap tid)⟩
              · rw [if_neg hown]
                by_cases hrest : eraseTaskInfo task_list tid = []
                · rw [if_pos hrest]
                  by_cases hwd0 : obj.watch_descriptor ≥ 0
                  · rw [if_pos hwd0]
                    exact ⟨hn.sublist ((eraseA_sublist _ _).map Prod.fst),
                      nodup_inotify_rm_watch _ _ hk,
                      hOK1 _ (fun _ => rfl), hU1 _ (fun _ => rfl)⟩
                  · rw [if_neg hwd0]
                    exact ⟨hn.sublist ((eraseA_sublist _ _).map Prod.fst), hk,
                      hOK1 _ (fun _ => rfl), hU1 _ (fun _ => rfl)⟩
                · rw [if_neg hrest]
                  exact ⟨nodup_keys_insertA _ _ _ hn, hk,
                    hOK2 _ (fun _ => rfl), hU2 _ (fun _ => rfl)⟩

/-- unregister_task(path) preserves the registry invariants. -/
theorem WF_unregister_path (fs : List String) (st : HotLoaderState)
    (f : String) (h : WF st) : WF (unregister_task_path fs st f).2 := by
  obtain ⟨hn, hk, hOK, hU⟩ := h
  simp only [unregister_task_path]
  by_cases hi : st.initialized = false
  · rw [if_pos hi]
    exact ⟨hn, hk, hOK, hU⟩
  · rw [if_neg hi]
    by_cases hnf : normalize_path fs f = ""
    · rw [if_pos hnf]
      exact ⟨hn, hk, hOK, hU⟩
    · rw [if_neg hnf]
      cases hl : lookupA st.tasks (normalize_path fs f) with
      | none => exact ⟨hn, hk, hOK, hU⟩
      | some task_list =>
        dsimp only
        cases task_list with
        | nil => exact ⟨hn, hk, hOK, hU⟩
        | cons info0 rest =>
          dsimp only
          have hOKd := @EntriesOKp_eraseA_detach st.heap st.tasks
            (normalize_path fs f) (info0 :: rest) hOK
          have hUd := EntriesUnifp_eraseA_detach hn hOK hU hl
          by_cases hwd0 : heapWd (detachHeap (info0 :: rest) st.heap) info0.task ≥ 0
          · rw [if_pos hwd0]
            exact ⟨hn.sublist ((eraseA_sublist _ _).map Prod.fst),
              nodup_inotify_rm_watch _ _ hk, hOKd, hUd⟩
          · rw [if_neg hwd0]
            exact ⟨hn.sublist ((eraseA_sublist _ _).map Prod.fst), hk,
              hOKd, hUd⟩

/-- rewatch_task preserves the registry invariants. -/
theorem WF_rewatch (fs : List String) (st : HotLoaderState) (t : Option Nat)
    (a : Bool) (h : WF st) : WF (rewatch_task fs st t a) := by
  obtain ⟨hn, hk, hOK, hU⟩ := h
  cases t with
  | none => exact ⟨hn, hk, hOK, hU⟩
  | some tid =>
    simp only [rewatch_task]
    cases hg : heapGet st.heap tid with
    | none => exact ⟨hn, hk, hOK, hU⟩
    | some obj =>
      dsimp only
      cases hl : lookupA st.tasks obj.file with
      | none => exact ⟨hn, hk, hOK, hU⟩
      | some task_list =>
        dsimp only
        cases task_list with
        | nil => exact ⟨hn, hk, hOK, hU⟩
        | cons info0 rest =>
          dsimp only
          by_cases hwd0 : heapWd st.heap info0.task ≥ 0
          case pos =>
            rw [if_pos hwd0]
            by_cases hex : fs.contains obj.file = false
            · rw [if_pos hex]
              exact ⟨hn, nodup_inotify_rm_watch _ _ hk,
                EntriesOKp_setWdHeap _ _ hOK,
                EntriesUnifp_setWdHeap _ hn hOK hU hl⟩
            · rw [if_neg hex]
              by_cases ha : a = true
              · rw [if_pos ha]
                constructor
                · rw [reloadSetAll_tasks, kernelAddWatch_tasks]
                  exact hn
                constructor
                · rw [reloadSetAll_kernel]
                  exact nodup_kernelAddWatch _ _
                    (nodup_inotify_rm_watch _ _ hk)
                constructor
                · rw [reloadSetAll_tasks, kernelAddWatch_tasks,
                    reloadSetAll_heap, kernelAddWatch_heap]
                  exact EntriesOKp_setWdHeap _ _ hOK
                · rw [reloadSetAll_tasks, kernelAddWatch_tasks,
                    reloadSetAll_heap, kernelAddWatch_heap]
                  exact EntriesUnifp_setWdHeap _ hn hOK hU hl
              · rw [if_neg ha]
                exact ⟨hn, nodup_inotify_rm_watch _ _ hk,
                  EntriesOKp_setWdHeap _ _ hOK,
                  EntriesUnifp_setWdHeap _ hn hOK hU hl⟩
          case neg =>
            rw [if_neg hwd0]
            by_cases hex : fs.contains obj.file = false
            · rw [if_pos hex]
              exact ⟨hn, hk, EntriesOKp_setWdHeap _ _ hOK,
                EntriesUnifp_setWdHeap _ hn hOK hU hl⟩
            · rw [if_neg hex]
              by_cases ha : a = true
              · rw [if_pos ha]
                constructor
                · rw [reloadSetAll_tasks, kernelAddWatch_tasks]
                  exact hn
                constructor
                · rw [reloadSetAll_kernel]
                  exact nodup_kernelAddWatch _ _ hk
                constructor
                · rw [reloadSetAll_tasks, kernelAddWatch_tasks,
                    reloadSetAll_heap, kernelAddWatch_heap]
                  exact EntriesOKp_setWdHeap _ _ hOK
                · rw [reloadSetAll_tasks, kernelAddWatch_tasks,
                    reloadSetAll_heap, kernelAddWatch_heap]
                  exact EntriesUnifp_setWdHeap _ hn hOK hU hl
              · rw [if_neg ha]
                exact ⟨hn, hk, EntriesOKp_setWdHeap _ _ hOK,
                  EntriesUnifp_setWdHeap _ hn hOK hU hl⟩

/-- restart_stopped_tasks never changes the registry map itself. -/
theorem restartEntries_tasks (fs : List String) (a : Bool)
    (es : List (String × List TaskInfo)) :
    ∀ st : HotLoaderState, (restartEntries fs a es st).tasks = st.tasks := by
  induction es with
  | nil => intro st; rfl
  | cons e rest ih =>
    intro st
    obtain ⟨file, l⟩ := e
    simp only [restartEntries]
    rw [ih]
    cases l with
    | nil => rfl
    | cons info0 l' =>
      dsimp only
      by_cases hc : heapWd st.heap info0.task < 0 ∧ fs.contains file = true
      · rw [if_pos hc]
        by_cases ha : a = true
        · rw [if_pos ha]
          dsimp only
          rw [reloadSetAll_tasks, kernelAddWatch_tasks]
        · rw [if_neg ha]
      · rw [if_neg hc]

/-- Each re-arm pass over genuine registry entries preserves the
invariants. -/
theorem WF_restartEntries (fs : List String) (a : Bool)
    (es : List (String × List TaskInfo)) :
    ∀ st : HotLoaderState, WF st →
      (∀ e ∈ es, lookupA st.tasks e.1 = some e.2) →
      WF (restartEntries fs a es st) := by
  induction es with
  | nil => intro st h _; exact h
  | cons e rest ih =>
    intro st h hgen
    obtain ⟨hn, hk, hOK, hU⟩ := h
    obtain ⟨file, l⟩ := e
    have hl : lookupA st.tasks file = some l :=
      hgen (file, l) (List.mem_cons_self _ _)
    have hrest : ∀ e ∈ rest, lookupA st.tasks e.1 = some e.2 :=
      fun e he => hgen e (List.mem_cons_of_mem _ he)
    simp only [restartEntries]
    cases l with
    | nil => exact ih st ⟨hn, hk, hOK, hU⟩ hrest
    | cons info0 l' =>
      dsimp only
      by_cases hc : heapWd st.heap info0.task < 0 ∧ fs.contains file = true
      · rw [if_pos hc]
        by_cases ha : a = true
        · rw [if_pos ha]
          refine ih _ ⟨?_, ?_, ?_, ?_⟩ ?_
          · rw [reloadSetAll_tasks, kernelAddWatch_tasks]
            exact hn
          · rw [reloadSetAll_kernel]
            exact nodup_kernelAddWatch _ _ hk
          · rw [reloadSetAll_tasks, kernelAddWatch_tasks, reloadSetAll_heap,
              kernelAddWatch_heap]
            exact EntriesOKp_setWdHeap _ _ hOK
          · rw [reloadSetAll_tasks, kernelAddWatch_tasks, reloadSetAll_heap,
              kernelAddWatch_heap]
            exact EntriesUnifp_setWdHeap _ hn hOK hU hl
          · intro e he
            rw [reloadSetAll_tasks, kernelAddWatch_tasks]
            exact hrest e he
        · rw [if_neg ha]
          exact ih st ⟨hn, hk, hOK, hU⟩ hrest
      · rw [if_neg hc]
        exact ih st ⟨hn, hk, hOK, hU⟩ hrest

/-- restart_stopped_tasks preserves the registry invariants. -/
theorem WF_restart (fs : List String) (st : HotLoaderState) (a : Bool)
    (h : WF st) : WF (restart_stopped_tasks fs st a) :=
  WF_restartEntries fs a st.tasks st h
    (fun _ he => lookupA_eq_of_mem h.1 he)

/-- Every registry-mutating operation preserves the invariants. -/
theorem WF_applyOp (st : HotLoaderState) (op : LoaderOp) (h : WF st) :
    WF (applyOp st op) := by
  cases op with
  | reg tid own addOk => exact WF_register st (some tid) own addOk h
  | unregObs tid => exact WF_unregister st (some tid) h
  | unregPath fs f => exact WF_unregister_path fs st f h
  | rewatch fs tid addOk => exact WF_rewatch fs st (some tid) addOk h
  | rearm fs addOk => exact WF_restart fs st addOk h

/-- Invariants hold after any operation sequence. -/
theorem WF_applyOps (st : HotLoaderState) (ops : List LoaderOp) (h : WF st) :
    WF (applyOps st ops) := by
  induction ops generalizing st with
  | nil => exact h
  | cons op rest ih => exact ih (applyOp st op) (WF_applyOp st op h)

/-- The shutdown drain touches only the heap, kernel watches and reverse
index: registry map, lifecycle flags and descriptors are untouched. -/
theorem unregAllInfo_pre (l : List TaskInfo) :
    ∀ st : HotLoaderState,
      (unregAllInfo l st).tasks = st.tasks ∧
      (unregAllInfo l st).initialized = st.initialized ∧
      (unregAllInfo l st).running = st.running ∧
      (unregAllInfo l st).worker_joinable = st.worker_joinable ∧
      (unregAllInfo l st).inotify_fd = st.inotify_fd ∧
      (unregAllInfo l st).epoll_fd = st.epoll_fd := by
  induction l with
  | nil => intro st; exact ⟨rfl, rfl, rfl, rfl, rfl, rfl⟩
  | cons info rest ih =>
    intro st
    simp only [unregAllInfo]
    by_cases h1 : heapWd st.heap info.task ≥ 0
    · rw [if_pos h1]
      by_cases h2 : info.ownership = OwnerShip.OWN_TASK
      · rw [if_pos h2]; exact ih _
      · rw [if_neg h2]; exact ih _
    · rw [if_neg h1]
      by_cases h2 : info.ownership = OwnerShip.OWN_TASK
      · rw [if_pos h2]; exact ih _
      · rw [if_neg h2]; exact ih _

/-- Entry-level version of the previous lemma. -/
theorem unregAllEntries_pre (es : List (String × List TaskInfo)) :
    ∀ st : HotLoaderState,
      (unregAllEntries es st).tasks = st.tasks ∧
      (unregAllEntries es st).initialized = st.initialized ∧
      (unregAllEntries es st).running = st.running ∧
      (unregAllEntries es st).worker_joinable = st.worker_joinable ∧
      (unregAllEntries es st).inotify_fd = st.inotify_fd ∧
      (unregAllEntries es st).epoll_fd = st.epoll_fd := by
  induction es with
  | nil => intro st; exact ⟨rfl, rfl, rfl, rfl, rfl, rfl⟩
  | cons e rest ih =>
    intro st
    obtain ⟨f, l⟩ := e
    simp only [unregAllEntries]
    obtain ⟨a1, a2, a3, a4, a5, a6⟩ := ih (unregAllInfo l st)
    obtain ⟨b1, b2, b3, b4, b5, b6⟩ := unregAllInfo_pre l st
    exact ⟨a1.trans b1, a2.trans b2, a3.trans b3, a4.trans b4,
      a5.trans b5, a6.trans b6⟩

/-- The shutdown drain preserves which ids are live in the heap. -/
theorem unregAllInfo_isSome (l : List TaskInfo) :
    ∀ (st : HotLoaderState) (t : Nat),
      (heapGet (unregAllInfo l st).heap t).isSome =
        (heapGet st.heap t).isSome := by
  induction l with
  | nil => intro st t; rfl
  | cons info rest ih =>
    intro st t
    simp only [unregAllInfo]
    by_cases h1 : heapWd st.heap info.task ≥ 0
    · rw [if_pos h1]
      by_cases h2 : info.ownership = OwnerShip.OWN_TASK
      · rw [if_pos h2]
        rw [ih _ t]
        exact heapGet_isSome_heapModify _ _ _ t
      · rw [if_neg h2]; exact ih _ t
    · rw [if_neg h1]
      by_cases h2 : info.ownership = OwnerShip.OWN_TASK
      · rw [if_pos h2]
        rw [ih _ t]
        exact heapGet_isSome_heapModify _ _ _ t
      · rw [if_neg h2]; exact ih _ t

/-- Once destroyed, an observer stays destroyed through the drain. -/
theorem unregAllInfo_destroyed_mono (l : List TaskInfo) :
    ∀ (st : HotLoaderState) (t : Nat), heapDestroyed st.heap t = true →
      heapDestroyed (unregAllInfo l st).heap t = true := by
  induction l with
  | nil => intro st t h; exact h
  | cons info rest ih =>
    intro st t h
    simp only [unregAllInfo]
    by_cases h1 : heapWd st.heap info.task ≥ 0
    · rw [if_pos h1]
      by_cases h2 : info.ownership = OwnerShip.OWN_TASK
      · rw [if_pos h2]
        exact ih _ t (heapDestroyed_destroy_mono _ _ h)
      · rw [if_neg h2]; exact ih _ t h
    · rw [if_neg h1]
      by_cases h2 : info.ownership = OwnerShip.OWN_TASK
      · rw [if_pos h2]
        exact ih _ t (heapDestroyed_destroy_mono _ _ h)
      · rw [if_neg h2]; exact ih _ t h

/-- The drain destroys every live registry-owned observer it visits. -/
theorem unregAllInfo_destroys (l : List TaskInfo) :
    ∀ (st : HotLoaderState) (info : TaskInfo), info ∈ l →
      info.ownership = OwnerShip.OWN_TASK →
      (heapGet st.heap info.task).isSome = true →
      heapDestroyed (unregAllInfo l st).heap info.task = true := by
  induction l with
  | nil => intro st info h; simp at h
  | cons info0 rest ih =>
    intro st info hmem hown hsome
    simp only [unregAllInfo]
    rcases List.mem_cons.mp hmem with heq | hmem0
    · subst heq
      by_cases h1 : heapWd st.heap info.task ≥ 0
      · rw [if_pos h1, if_pos hown]
        exact unregAllInfo_destroyed_mono rest _ _
          (heapDestroyed_destroy_self _ _ hsome)
      · rw [if_neg h1, if_pos hown]
        exact unregAllInfo_destroyed_mono rest _ _
          (heapDestroyed_destroy_self _ _ hsome)
    · by_cases h1 : heapWd st.heap info0.task ≥ 0
      · rw [if_pos h1]
        by_cases h2 : info0.ownership = OwnerShip.OWN_TASK
        · rw [if_pos h2]
          refine ih _ info hmem0 hown ?_
          rw [heapGet_isSome_heapModify]
          exact hsome
        · rw [if_neg h2]; exact ih _ info hmem0 hown hsome
      · rw [if_neg h1]
        by_cases h2 : info0.ownership = OwnerShip.OWN_TASK
        · rw [if_pos h2]
          refine ih _ info hmem0 hown ?_
          rw [heapGet_isSome_heapModify]
          exact hsome
        · rw [if_neg h2]; exact ih _ info hmem0 hown hsome

/-- Entry-level liveness preservation. -/
theorem unregAllEntries_isSome (es : List (String × List TaskInfo)) :
    ∀ (st : HotLoaderState) (t : Nat),
      (heapGet (unregAllEntries es st).heap t).isSome =
        (heapGet st.heap t).isSome := by
  induction es with
  | nil => intro st t; rfl
  | cons e rest ih =>
    intro st t
    obtain ⟨f, l⟩ := e
    simp only [unregAllEntries]
    rw [ih _ t]
    exact unregAllInfo_isSome l st t

/-- Entry-level destruction monotonicity. -/
theorem unregAllEntries_destroyed_mono (es : List (String × List TaskInfo)) :
    ∀ (st : HotLoaderState) (t : Nat), heapDestroyed st.heap t = true →
      heapDestroyed (unregAllEntries es st).heap t = true := by
  induction es with
  | nil => intro st t h; exact h
  | cons e rest ih =>
    intro st t h
    obtain ⟨f, l⟩ := e
    simp only [unregAllEntries]
    exact ih _ t (unregAllInfo_destroyed_mono l st t h)

/-- The full drain destroys every live registry-owned observer of every
entry. -/
theorem unregAllEntries_destroys (es : List (String × List TaskInfo)) :
    ∀ (st : HotLoaderState), ∀ e ∈ es, ∀ info ∈ e.2,
      info.ownership = OwnerShip.OWN_TASK →
      (heapGet st.heap info.task).isSome = true →
      heapDestroyed (unregAllEntries es st).heap info.task = true := by
  induction es with
  | nil => intro st e he; simp at he
  | cons e0 rest ih =>
    intro st e he info hinfo hown hsome
    obtain ⟨f, l⟩ := e0
    simp only [unregAllEntries]
    rcases List.mem_cons.mp he with heq | hmem0
    · subst heq
      exact unregAllEntries_destroyed_mono rest _ _
        (unregAllInfo_destroys l st info hinfo hown hsome)
    · refine ih _ e hmem0 info hinfo hown ?_
      rw [unregAllInfo_isSome]
      exact hsome

/-- A state already stopped is unchanged by clearing the running flag. -/
theorem update_running_self (s : HotLoaderState) (h : s.running = false) :
    { s with running := false } = s := by
  cases s with
  | mk heap tasks wdidx kern nw rl ifd efd ini run wj =>
    simp only at h
    subst h
    rfl

/-- A state with a drained registry is unchanged by draining it again. -/
theorem update_tasks_wdidx_self (s : HotLoaderState) (h1 : s.tasks = [])
    (h2 : s.watch_descriptors = []) :
    { s with tasks := ([] : List (String × List TaskInfo)),
             watch_descriptors := ([] : List (Int × String)) } = s := by
  cases s with
  | mk heap tasks wdidx kern nw rl ifd efd ini run wj =>
    simp only at h1 h2
    subst h1
    subst h2
    rfl

/-- stop() from a non-dispatcher thread always joins (when joinable) and
then drains. -/
theorem stop_false_eq (st : HotLoaderState) :
    stop st false =
      if st.worker_joinable then
        some (unregister_all_tasks
          { st with running := false, worker_joinable := false }).2
      else some (unregister_all_tasks { st with running := false }).2 := by
  unfold stop
  by_cases hj : st.worker_joinable = true
  · simp [hj]
  · simp [hj]

/-- stop() on an already stopped and drained state changes nothing. -/
theorem stop_noop (s : HotLoaderState) (h1 : s.running = false)
    (h2 : s.worker_joinable = false) (h3 : s.tasks = [])
    (h4 : s.watch_descriptors = []) : stop s false = some s := by
  rw [stop_false_eq]
  rw [if_neg (by simp [h2])]
  rw [update_running_self s h1]
  unfold unregister_all_tasks
  by_cases hi : s.initialized = false
  · rw [if_pos hi]
  · rw [if_neg hi]
    dsimp only
    rw [h3]
    dsimp only [unregAllEntries]
    rw [update_tasks_wdidx_self s h3 h4]

/-- stop() called on an initialized loader from a caller thread achieves
the full shutdown contract except descriptor release. -/
theorem stop_behavior_of_initialized (st : HotLoaderState)
    (hinit : st.initialized = true) : stopBehavior st := by
  have main : ∀ stA : HotLoaderState, stA.tasks = st.tasks →
      stA.heap = st.heap → stA.initialized = true → stA.running = false →
      stA.worker_joinable = false → stA.inotify_fd = st.inotify_fd →
      stA.epoll_fd = st.epoll_fd →
      ((unregister_all_tasks stA).2.running = false ∧
       (unregister_all_tasks stA).2.worker_joinable = false ∧
       (unregister_all_tasks stA).2.tasks = [] ∧
       (unregister_all_tasks stA).2.watch_descriptors = [] ∧
       (unregister_all_tasks stA).2.inotify_fd = st.inotify_fd ∧
       (unregister_all_tasks stA).2.epoll_fd = st.epoll_fd ∧
       stop (unregister_all_tasks stA).2 false =
         some (unregister_all_tasks stA).2 ∧
       destroyedAll st (unregister_all_tasks stA).2) := by
    intro stA hA hAheap hAini hArun hAj hAi hAe
    unfold unregister_all_tasks
    rw [if_neg (by simp [hAini])]
    dsimp only
    obtain ⟨p1, p2, p3, p4, p5, p6⟩ := unregAllEntries_pre stA.tasks stA
    refine ⟨?_, ?_, rfl, rfl, ?_, ?_, ?_, ?_⟩
    · show (unregAllEntries stA.tasks stA).running = false
      rw [p3, hArun]
    · show (unregAllEntries stA.tasks stA).worker_joinable = false
      rw [p4, hAj]
    · show (unregAllEntries stA.tasks stA).inotify_fd = st.inotify_fd
      rw [p5, hAi]
    · show (unregAllEntries stA.tasks stA).epoll_fd = st.epoll_fd
      rw [p6, hAe]
    · refine stop_noop _ ?_ ?_ rfl rfl
      · show (unregAllEntries stA.tasks stA).running = false
        rw [p3, hArun]
      · show (unregAllEntries stA.tasks stA).worker_joinable = false
        rw [p4, hAj]
    · intro e he info hinfo hown hsome
      show heapDestroyed (unregAllEntries stA.tasks stA).heap info.task = true
      refine unregAllEntries_destroys stA.tasks stA e ?_ info hinfo hown ?_
      · rw [hA]
        exact he
      · rw [hAheap]
        exact hsome
  unfold stopBehavior
  rw [stop_false_eq]
  by_cases hj : st.worker_joinable = true
  · rw [if_pos hj]
    exact main { st with running := false, worker_joinable := false }
      rfl rfl hinit rfl rfl rfl rfl
  · rw [if_neg hj]
    have hjf : st.worker_joinable = false := by simpa using hj
    exact main { st with running := false } rfl rfl hinit rfl hjf rfl rfl

/-- A state with pairwise-distinct kernel watch paths has at most one
watch per path. -/
theorem watchCountFor_le_one (st : HotLoaderState) (P : String)
    (hk : (st.kernelWatches.map Prod.snd).Nodup) : watchCountFor st P ≤ 1 :=
  List.nodup_iff_count_le_one.mp hk P

/-- Registering a further observer on a path that already has observers
reuses the shared watch descriptor and leaves the kernel watch set
untouched. -/
theorem register_task_kernel_reuse (st : HotLoaderState) (tid : Nat)
    (own : OwnerShip) (addOk : Bool) (P : String) (l : List TaskInfo)
    (hf : heapFile st.heap tid = some P) (hl : lookupA st.tasks P = some l)
    (hne : l ≠ []) :
    (register_task st (some tid) own addOk).2.kernelWatches =
      st.kernelWatches := by
  simp only [register_task]
  by_cases hi : st.initialized = false
  · rw [if_pos hi]
  · rw [if_neg hi]
    cases hg : heapGet st.heap tid with
    | none => rfl
    | some obj =>
      have hfe : obj.file = P := by
        unfold heapFile at hf
        rw [hg] at hf
        exact Option.some.inj hf
      dsimp only
      rw [hfe, getOrInsertEmpty_of_some hl, hl]
      dsimp only [Option.getD]
      by_cases hdup : l.any (fun info => info.task == tid) = true
      · rw [if_pos hdup]
      · rw [if_neg hdup]
        cases l with
        | nil => exact absurd rfl hne
        | cons i0 l' => rfl

/-- One aggregated close-write event reloads exactly the observers of the
resolved path, in registration order, and nothing else. -/
theorem processEvents_close_write (fs : List String) (addOk : Bool)
    (st : HotLoaderState) (w : Int) (F : String) (l : List TaskInfo)
    (hw : lookupA st.watch_descriptors w = some F)
    (hl : lookupA st.tasks F = some l) :
    (processEvents fs addOk [(w, IN_CLOSE_WRITE)] st).reloads =
      st.reloads ++ l.map TaskInfo.task := by
  show (processEvent fs addOk st w IN_CLOSE_WRITE).reloads =
    st.reloads ++ l.map TaskInfo.task
  unfold processEvent
  rw [hw]
  dsimp only
  rw [hl]
  dsimp only
  rw [dispatchList_reload fs addOk IN_CLOSE_WRITE (by decide) l st]

/-- Claim C1: the claim states that one delete-and-recreate of a watched
path yields exactly one on_reload() per observer (N calls for N
observers).  The code instead calls rewatch_task once per observer from
the work_loop dispatch loop, and each rewatch_task call itself reloads
every observer of the entry, so two observers on /cfg/app.conf receive
four reloads (task ids 1, 2, 1, 2) from a single IN_IGNORED event instead
of the claimed two. -/
theorem claim_C1_rewatch_reload_count :
    (processEvents ["/cfg/app.conf"] true [((1 : Int), IN_IGNORED)]
      c1AfterDelete).reloads = [1, 2, 1, 2] := by decide

/-- Claim C2: the claim states that a successful unregister_task(path)
removes the kernel watch and the reverse-index entry for the path.  The
code resets every observer's descriptor to -1 before checking
task_list[0]'s descriptor, so the removal branch is dead: after a
successful unregister of /cfg/b.conf (return 0, entry erased) the kernel
watch is still live and the reverse index still maps descriptor 1 to the
path. -/
theorem claim_C2_unregister_path_stale_watch :
    (unregister_task_path ["/cfg/b.conf"] c2Reg "/cfg/b.conf").1 = 0 ∧
    lookupA (unregister_task_path ["/cfg/b.conf"] c2Reg
      "/cfg/b.conf").2.watch_descriptors 1 = some "/cfg/b.conf" ∧
    (unregister_task_path ["/cfg/b.conf"] c2Reg
      "/cfg/b.conf").2.kernelWatches = [(1, "/cfg/b.conf")] ∧
    lookupA (unregister_task_path ["/cfg/b.conf"] c2Reg
      "/cfg/b.conf").2.tasks "/cfg/b.conf" = none := by decide

/-- Claim C3: the claim states that a fatal multiplexer or channel error
(anything but interrupted/would-block) makes the dispatcher self-terminate
and shut down silently without crashing the host process, while EINTR is
retried.  The EINTR and EAGAIN paths do behave as claimed, but on a fatal
error (errno 9, EBADF) work_loop calls stop() on the dispatcher thread
itself; stop() then calls join() on that same thread, which throws
std::system_error and terminates the process — modelled as the crashed
outcome. -/
theorem claim_C3_fatal_error_terminates_process :
    epoll_error_step c3State 9 = DispatchOutcome.crashed ∧
    epoll_error_step c3State EINTR = DispatchOutcome.continueLoop c3State ∧
    read_error_step c3State 9 = ReadErrOutcome.crashed ∧
    read_error_step c3State EAGAIN = ReadErrOutcome.breakDrain ∧
    read_error_step c3State EINTR = ReadErrOutcome.retryRead :=
  ⟨rfl, rfl, rfl, rfl, rfl⟩

/-- Claim C4: over any sequence of register_task / unregister_task
operations from a well-formed state, the number of live kernel watches for
any one path never exceeds one, and registering an additional observer on
an already-watched path leaves the kernel watch set unchanged (the
existing watch descriptor is reused). -/
theorem claim_C4_at_most_one_watch (st0 : HotLoaderState) (hWF : WF st0)
    (P : String) (ops : List LoaderOp)
    (_hops : ∀ op ∈ ops, regUnregOnly op = true) (tid : Nat)
    (own : OwnerShip) (addOk : Bool) (l : List TaskInfo) :
    watchCountFor (applyOps st0 ops) P ≤ 1 ∧
    (heapFile (applyOps st0 ops).heap tid = some P →
      lookupA (applyOps st0 ops).tasks P = some l → l ≠ [] →
      (register_task (applyOps st0 ops) (some tid) own addOk).2.kernelWatches
        = (applyOps st0 ops).kernelWatches) := by
  refine ⟨watchCountFor_le_one _ P (WF_applyOps st0 ops hWF).2.1, ?_⟩
  intro hf hl hne
  exact register_task_kernel_reuse _ tid own addOk P l hf hl hne

/-- Witness for claim C4 at a concrete state: after registering observer 1
on /cfg/app.conf there is at most one kernel watch for the path, and
registering observer 2 on the same path leaves the kernel watches
unchanged. -/
theorem claim_C4_at_most_one_watch_witness :
    watchCountFor (applyOps c4Start
      [LoaderOp.reg 1 OwnerShip.OWN_TASK true]) "/cfg/app.conf" ≤ 1 ∧
    (heapFile (applyOps c4Start
        [LoaderOp.reg 1 OwnerShip.OWN_TASK true]).heap 2 =
          some "/cfg/app.conf" →
      lookupA (applyOps c4Start
        [LoaderOp.reg 1 OwnerShip.OWN_TASK true]).tasks "/cfg/app.conf" =
          some [TaskInfo.mk 1 OwnerShip.OWN_TASK] →
      [TaskInfo.mk 1 OwnerShip.OWN_TASK] ≠ [] →
      (register_task (applyOps c4Start
          [LoaderOp.reg 1 OwnerShip.OWN_TASK true]) (some 2)
          OwnerShip.DOESNT_OWN_TASK true).2.kernelWatches =
        (applyOps c4Start
          [LoaderOp.reg 1 OwnerShip.OWN_TASK true]).kernelWatches) :=
  claim_C4_at_most_one_watch c4Start (by decide) "/cfg/app.conf"
    [LoaderOp.reg 1 OwnerShip.OWN_TASK true] (by decide) 2
    OwnerShip.DOESNT_OWN_TASK true [TaskInfo.mk 1 OwnerShip.OWN_TASK]

/-- Claim C5: one aggregated write-complete (IN_CLOSE_WRITE) event for a
watched descriptor reloads exactly the observers registered for the
resolved path, one call each, in registration order, and appends nothing
for observers of any other path. -/
theorem claim_C5_close_write_reloads (fs : List String) (addOk : Bool)
    (st : HotLoaderState) (w : Int) (F : String) (l : List TaskInfo)
    (hw : lookupA st.watch_descriptors w = some F)
    (hl : lookupA st.tasks F = some l) :
    (processEvents fs addOk [(w, IN_CLOSE_WRITE)] st).reloads =
      st.reloads ++ l.map TaskInfo.task :=
  processEvents_close_write fs addOk st w F l hw hl

/-- Witness for claim C5: two observers (ids 5 and 6) on /cfg/w5.conf;
one close-write event on their descriptor reloads exactly 5 then 6. -/
theorem claim_C5_close_write_reloads_witness :
    (processEvents [] true [((1 : Int), IN_CLOSE_WRITE)] c5Reg).reloads =
      c5Reg.reloads ++
        ([TaskInfo.mk 5 OwnerShip.OWN_TASK,
          TaskInfo.mk 6 OwnerShip.DOESNT_OWN_TASK].map TaskInfo.task) :=
  claim_C5_close_write_reloads [] true c5Reg 1 "/cfg/w5.conf"
    [TaskInfo.mk 5 OwnerShip.OWN_TASK,
     TaskInfo.mk 6 OwnerShip.DOESNT_OWN_TASK] (by decide) (by decide)

/-- Claim C6: starting from a well-formed state, after any sequence of
register / unregister-by-observer / unregister-by-path / rewatch / re-arm
operations, all observers of one path hold exactly the same kernel watch
descriptor (or all hold -1): each observer's id mirrors its entry's id. -/
theorem claim_C6_entry_uniformity (st0 : HotLoaderState) (hWF : WF st0)
    (ops : List LoaderOp) :
    EntriesUnifp (applyOps st0 ops).heap (applyOps st0 ops).tasks :=
  (WF_applyOps st0 ops hWF).2.2.2

/-- Witness for claim C6 at a concrete state: registrations, a rewatch, a
re-arm pass and an unregister of the first observer keep the entry
uniform. -/
theorem claim_C6_entry_uniformity_witness :
    EntriesUnifp
      (applyOps c4Start
        [LoaderOp.reg 1 OwnerShip.OWN_TASK true,
         LoaderOp.reg 2 OwnerShip.DOESNT_OWN_TASK true,
         LoaderOp.rewatch ["/cfg/app.conf"] 1 true,
         LoaderOp.rearm [] true,
         LoaderOp.unregObs 1]).heap
      (applyOps c4Start
        [LoaderOp.reg 1 OwnerShip.OWN_TASK true,
         LoaderOp.reg 2 OwnerShip.DOESNT_OWN_TASK true,
         LoaderOp.rewatch ["/cfg/app.conf"] 1 true,
         LoaderOp.rearm [] true,
         LoaderOp.unregObs 1]).tasks :=
  claim_C6_entry_uniformity c4Start (by decide)
    [LoaderOp.reg 1 OwnerShip.OWN_TASK true,
     LoaderOp.reg 2 OwnerShip.DOESNT_OWN_TASK true,
     LoaderOp.rewatch ["/cfg/app.conf"] 1 true,
     LoaderOp.rearm [] true,
     LoaderOp.unregObs 1]

/-- Claim C7: every caller-misuse error is returned synchronously with the
whole state unchanged: null observer on register/unregister, any call
before init(), duplicate registration of the same observer for the same
path, unregistering an observer whose path has no entry or whose entry
does not contain it, and unregistering an unknown or invalid path. -/
theorem claim_C7_misuse_no_state_change (st : HotLoaderState) (tid : Nat)
    (own : OwnerShip) (addOk : Bool) (obj : TaskObj) (l : List TaskInfo)
    (fs : List String) (p : String) :
    (register_task st none own addOk = (-1, st)) ∧
    (st.initialized = false → register_task st (some tid) own addOk = (-2, st)) ∧
    (st.initialized = true → heapGet st.heap tid = some obj →
      lookupA st.tasks obj.file = some l →
      l.any (fun info => info.task == tid) = true →
      register_task st (some tid) own addOk = (-3, st)) ∧
    (unregister_task st none = (-1, st)) ∧
    (st.initialized = false → unregister_task st (some tid) = (-2, st)) ∧
    (st.initialized = true → heapGet st.heap tid = some obj →
      lookupA st.tasks obj.file = none →
      unregister_task st (some tid) = (-4, st)) ∧
    (st.initialized = true → heapGet st.heap tid = some obj →
      lookupA st.tasks obj.file = some l → findInfo l tid = none →
      unregister_task st (some tid) = (-4, st)) ∧
    (st.initialized = false → unregister_task_path fs st p = (-2, st)) ∧
    (st.initialized = true → normalize_path fs p ≠ "" →
      lookupA st.tasks (normalize_path fs p) = none →
      unregister_task_path fs st p = (-4, st)) := by
  refine ⟨rfl, ?_, ?_, rfl, ?_, ?_, ?_, ?_, ?_⟩
  · intro hi
    simp only [register_task]
    rw [if_pos hi]
  · intro hi hg hl hdup
    simp only [register_task]
    rw [if_neg (by simp [hi]), hg]
    dsimp only
    rw [getOrInsertEmpty_of_some hl, hl]
    dsimp only [Option.getD]
    rw [if_pos hdup]
  · intro hi
    simp only [unregister_task]
    rw [if_pos hi]
  · intro hi hg hl
    simp only [unregister_task]
    rw [if_neg (by simp [hi]), hg]
    dsimp only
    rw [hl]
  · intro hi hg hl hfind
    simp only [unregister_task]
    rw [if_neg (by simp [hi]), hg]
    dsimp only
    rw [hl]
    dsimp only
    by_cases hemp : l = []
    · rw [if_pos hemp]
    · rw [if_neg hemp, hfind]
  · intro hi
    simp only [unregister_task_path]
    rw [if_pos hi]
  · intro hi hnf hl
    simp only [unregister_task_path]
    rw [if_neg (by simp [hi]), if_neg hnf, hl]

/-- Witness for claim C7 at a concrete state: observer 1 is registered on
/cfg/app.conf, so the duplicate-registration and not-found cases evaluate
concretely; the pre-init cases hold vacuously at this initialized
state. -/
theorem claim_C7_misuse_no_state_change_witness :
    (register_task c7Start none OwnerShip.OWN_TASK true = (-1, c7Start)) ∧
    (c7Start.initialized = false →
      register_task c7Start (some 1) OwnerShip.OWN_TASK true =
        (-2, c7Start)) ∧
    (c7Start.initialized = true →
      heapGet c7Start.heap 1 = some (TaskObj.mk "/cfg/app.conf" 1 false) →
      lookupA c7Start.tasks (TaskObj.mk "/cfg/app.conf" 1 false).file =
        some [TaskInfo.mk 1 OwnerShip.DOESNT_OWN_TASK] →
      ([TaskInfo.mk 1 OwnerShip.DOESNT_OWN_TASK].any
        (fun info => info.task == 1)) = true →
      register_task c7Start (some 1) OwnerShip.OWN_TASK true =
        (-3, c7Start)) ∧
    (unregister_task c7Start none = (-1, c7Start)) ∧
    (c7Start.initialized = false →
      unregister_task c7Start (some 1) = (-2, c7Start)) ∧
    (c7Start.initialized = true →
      heapGet c7Start.heap 1 = some (TaskObj.mk "/cfg/app.conf" 1 false) →
      lookupA c7Start.tasks (TaskObj.mk "/cfg/app.conf" 1 false).file =
        none →
      unregister_task c7Start (some 1) = (-4, c7Start)) ∧
    (c7Start.initialized = true →
      heapGet c7Start.heap 1 = some (TaskObj.mk "/cfg/app.conf" 1 false) →
      lookupA c7Start.tasks (TaskObj.mk "/cfg/app.conf" 1 false).file =
        some [TaskInfo.mk 1 OwnerShip.DOESNT_OWN_TASK] →
      findInfo [TaskInfo.mk 1 OwnerShip.DOESNT_OWN_TASK] 1 = none →
      unregister_task c7Start (some 1) = (-4, c7Start)) ∧
    (c7Start.initialized = false →
      unregister_task_path [] c7Start "/gone" = (-2, c7Start)) ∧
    (c7Start.initialized = true → normalize_path [] "/gone" ≠ "" →
      lookupA c7Start.tasks (normalize_path [] "/gone") = none →
      unregister_task_path [] c7Start "/gone" = (-4, c7Start)) :=
  claim_C7_misuse_no_state_change c7Start 1 OwnerShip.OWN_TASK true
    (TaskObj.mk "/cfg/app.conf" 1 false)
    [TaskInfo.mk 1 OwnerShip.DOESNT_OWN_TASK] [] "/gone"

/-- Claim C8 counterexample: the claim states that after a register_task
failing with WatchCreateFailed the registry contains no entry for the
path.  At the concrete state with observer object 1 for /cfg/c.conf and
inotify_add_watch failing, register_task returns -4 but leaves a
physically present (empty) entry for the path — the lookup yields
some [] rather than none. -/
theorem claim_C8_counterexample :
    (register_task c8State (some 1) OwnerShip.OWN_TASK false).1 = -4 ∧
    lookupA (register_task c8State (some 1) OwnerShip.OWN_TASK
      false).2.tasks "/cfg/c.conf" = some [] ∧
    lookupA (register_task c8State (some 1) OwnerShip.OWN_TASK
      false).2.tasks "/cfg/c.conf" ≠ none := by decide

/-- Claim C8 (amended): when register_task fails because kernel watch
creation fails, the path is left with no registered observers and no
kernel watch — the heap, kernel watch set and reverse index are unchanged
— but the path → observers map retains a physically present empty entry
(inserted by the operator[] map indexing) rather than no entry at all. -/
theorem claim_C8_amended_no_observers (st : HotLoaderState) (tid : Nat)
    (own : OwnerShip) (obj : TaskObj) (hinit : st.initialized = true)
    (hobj : heapGet st.heap tid = some obj)
    (hnew : lookupA st.tasks obj.file = none) :
    (register_task st (some tid) own false).1 = -4 ∧
    lookupA (register_task st (some tid) own false).2.tasks obj.file =
      some [] ∧
    (register_task st (some tid) own false).2.kernelWatches =
      st.kernelWatches ∧
    (register_task st (some tid) own false).2.heap = st.heap ∧
    (register_task st (some tid) own false).2.watch_descriptors =
      st.watch_descriptors := by
  have hred : register_task st (some tid) own false =
      (-4, { st with tasks := insertA st.tasks obj.file [] }) := by
    simp only [register_task]
    rw [if_neg (by simp [hinit]), hobj]
    dsimp only
    rw [getOrInsertEmpty_of_none hnew, lookupA_insertA_self]
    dsimp only [Option.getD]
    rw [if_neg (by simp)]
    rw [if_neg (by simp)]
  rw [hred]
  exact ⟨rfl, lookupA_insertA_self st.tasks obj.file [], rfl, rfl, rfl⟩

/-- Witness for the amended claim C8 at the concrete state: observer 1 for
/cfg/c.conf, watch creation failing. -/
theorem claim_C8_amended_no_observers_witness :
    (register_task c8State (some 1) OwnerShip.OWN_TASK false).1 = -4 ∧
    lookupA (register_task c8State (some 1) OwnerShip.OWN_TASK
      false).2.tasks cObj.file = some [] ∧
    (register_task c8State (some 1) OwnerShip.OWN_TASK
      false).2.kernelWatches = c8State.kernelWatches ∧
    (register_task c8State (some 1) OwnerShip.OWN_TASK false).2.heap =
      c8State.heap ∧
    (register_task c8State (some 1) OwnerShip.OWN_TASK
      false).2.watch_descriptors = c8State.watch_descriptors :=
  claim_C8_amended_no_observers c8State 1 OwnerShip.OWN_TASK cObj
    (by decide) (by decide) (by decide)

/-- Claim C9 counterexample: the claim states that on completion of stop()
the inotify and epoll descriptors have been released.  After init() opens
descriptors 3 and 4, stop() completes but both descriptors are still open
(release would have set them to -1; only close_file_descriptors, called by
the destructor, does that). -/
theorem claim_C9_counterexample :
    (stop c9InitState false).map HotLoaderState.inotify_fd = some 3 ∧
    (stop c9InitState false).map HotLoaderState.epoll_fd = some 4 ∧
    (close_file_descriptors c9InitState).inotify_fd = -1 := by decide

/-- Claim C9 (amended): stop() called from a caller thread on an
initialized loader completes: it clears the running flag, joins, drains
every remaining observer (destroying each live registry-owned one),
empties the registry and reverse index, and a second consecutive stop() is
a no-op returning the identical state; the inotify and epoll descriptors
are not released by stop() itself — they are closed only by
close_file_descriptors, which the destructor invokes. -/
theorem claim_C9_amended_stop_idempotent (st : HotLoaderState)
    (hinit : st.initialized = true) : stopBehavior st :=
  stop_behavior_of_initialized st hinit

/-- Witness for the amended claim C9 at a concrete state with a
registry-owned observer registered. -/
theorem claim_C9_amended_stop_idempotent_witness : stopBehavior c9Reg :=
  claim_C9_amended_stop_idempotent c9Reg (by decide)

/-- Claim C10: when a watched path has been deleted and remains absent,
unregister_task(path) fails with InvalidPath (-3) because path
normalization yields the empty sentinel for a path that does not resolve
to an existing regular file, and the state — including the registered
observers — is left completely unchanged. -/
theorem claim_C10_unregister_deleted_path (fs : List String)
    (st : HotLoaderState) (p : String) (hp : fs.contains p = false)
    (hinit : st.initialized = true) :
    unregister_task_path fs st p = (-3, st) := by
  simp only [unregister_task_path]
  rw [if_neg (by simp [hinit])]
  have hnf : normalize_path fs p = "" := by
    unfold normalize_path
    rw [hp]
    rfl
  rw [hnf]
  rw [if_pos rfl]

/-- Witness for claim C10: observer 1 is registered on /cfg/app.conf, the
file is absent from the filesystem, and unregister-by-path fails with -3
leaving the state unchanged. -/
theorem claim_C10_unregister_deleted_path_witness :
    unregister_task_path [] c7Start "/cfg/app.conf" = (-3, c7Start) :=
  claim_C10_unregister_deleted_path [] c7Start "/cfg/app.conf"
    (by decide) (by decide)

end HotLoader
